import Mathlib

/-!
# Verification of the drawui build-repair agent loop and sandbox lifecycle

Shallow embedding of the core of the `drawui` repository:

* `src/app/api/generate-e2b/route.ts` — the streaming generation route with the
  tool-calling repair agent loop (`extractCodeFromResponse`, `detectShadcnImports`,
  the `POST` handler's event stream, `setupNewSandbox`).
* `src/lib/gemini.ts` — the comment-stripping post-processing applied to
  generated code (three sequential JavaScript `String.replace` calls).
* `src/lib/e2b-sandbox.ts` (unnamed part) and the `sandbox-init` / `sandbox-kill`
  routes — the sandbox pool: `activeSandboxes`, `prewarmedSandboxId`,
  `prewarmSandbox`, `getPrewarmedSandbox`, `closeSandbox`.

Remote effects (model calls, sandbox operations) are parameterised by an
environment supplying each call's outcome, so theorems quantify over all
behaviours of the collaborators.  JavaScript regular-expression semantics are
modelled character-exactly on `List Char` (documented at each definition).
-/

/-- JavaScript `String.prototype.includes` on character lists:
`pat` occurs as a contiguous substring. -/
def listContains (pat : List Char) : List Char → Bool
  | [] => pat.isEmpty
  | c :: rest => pat.isPrefixOf (c :: rest) || listContains pat rest

/-- `s.includes(pat)` for strings. -/
def strIncludes (s pat : String) : Bool :=
  listContains pat.toList s.toList

/-- The whitespace class used by JavaScript `\s` restricted to the characters
that can appear in the texts we model (space, tab, CR, LF, VT, FF).  JavaScript
additionally treats some exotic Unicode spaces as `\s`; none occur here. -/
def jsWs (c : Char) : Bool :=
  c = ' ' || c = '\t' || c = '\r' || c = '\n' || c = Char.ofNat 11 || c = Char.ofNat 12

/-- Line-terminator characters for `[\r\n]` and for the `m`-flag `^` anchor. -/
def isNlChar (c : Char) : Bool :=
  c = '\n' || c = '\r'

/-- `s` contains no line terminator. -/
def noNl (l : List Char) : Bool :=
  l.all (fun c => !isNlChar c)

/-- Characters allowed in indentation (the only whitespace we put inside
well-formed rendered lines). -/
def wsOnlyChar (c : Char) : Bool :=
  c = ' ' || c = '\t'

def wsOnly (l : List Char) : Bool :=
  l.all wsOnlyChar

/-- JavaScript `String.prototype.trim` on character lists. -/
def trimChars (l : List Char) : List Char :=
  ((l.dropWhile jsWs).reverse.dropWhile jsWs).reverse

/-! ## `extractCodeFromResponse` (generate-e2b route, lines 96–102)

JavaScript: `text.match(/```(?:tsx|typescript|jsx|javascript)?\s*([\s\S]*?)```/)`
then `codeMatch[1].trim()`.  The leftmost match starts at the first "```";
the optional language tag is consumed greedily if present, then a maximal run
of whitespace, and the lazy capture extends to the next "```". -/

/-- Suffix immediately after the first occurrence of three consecutive
backticks, or `none`. -/
def dropThroughFence (l : List Char) : Option (List Char) :=
  match l with
  | [] => none
  | [_] => none
  | [_, _] => none
  | a :: b :: c :: rest =>
    if a = '`' && b = '`' && c = '`' then some rest
    else dropThroughFence (b :: c :: rest)

/-- Prefix strictly before the first occurrence of three consecutive
backticks, or `none` if there is no such occurrence. -/
def takeUntilFence (l : List Char) : Option (List Char) :=
  match l with
  | [] => none
  | [_] => none
  | [_, _] => none
  | a :: b :: c :: rest =>
    if a = '`' && b = '`' && c = '`' then some []
    else (takeUntilFence (b :: c :: rest)).map (a :: ·)

/-- The language tags of the extraction regex, in alternation order. -/
def langTags : List (List Char) :=
  ["tsx".toList, "typescript".toList, "jsx".toList, "javascript".toList]

/-- Consume the optional `(?:tsx|typescript|jsx|javascript)?` group. -/
def stripLang (l : List Char) : List Char :=
  match langTags.find? (fun t => t.isPrefixOf l) with
  | some t => l.drop t.length
  | none => l

/-- `extractCodeFromResponse` from the generate-e2b route: first fenced code
block, trimmed; `none` when the regex does not match. -/
def extractCodeFromResponse (text : String) : Option String :=
  match dropThroughFence text.toList with
  | none => none
  | some afterOpen =>
    match takeUntilFence ((stripLang afterOpen).dropWhile jsWs) with
    | none => none
    | some body => some (String.mk (trimChars body))

/-! ## Comment stripping (`gemini.ts` lines 154–158)

```
code.replace(/\/\*[\s\S]*?\*\//g, "")   // block comments
    .replace(/\/\/.*/g, "")             // line comments
    .replace(/^\s*[\r\n]/gm, "")        // blank lines
```
-/

/-- Suffix after the first occurrence of `*/`, or `none`. -/
def findStarSlash (l : List Char) : Option (List Char) :=
  match l with
  | [] => none
  | [_] => none
  | a :: b :: rest =>
    if a = '*' && b = '/' then some rest
    else findStarSlash (b :: rest)

theorem findStarSlash_lt (l : List Char) :
    ∀ r, findStarSlash l = some r → r.length < l.length := by
  induction l with
  | nil => intro r h; simp [findStarSlash] at h
  | cons a tl ih =>
    intro r h
    cases tl with
    | nil => simp [findStarSlash] at h
    | cons b tl' =>
      rw [findStarSlash] at h
      split at h
      · cases h
        simp only [List.length_cons]
        omega
      · have := ih r h
        simp only [List.length_cons] at this ⊢
        omega

/-- First pass: remove every `/* ... */` block (lazy), keeping an unclosed
`/*` verbatim.  Matches JavaScript `replace(/\/\*[\s\S]*?\*\//g, "")`. -/
def stripBlockComments (l : List Char) : List Char :=
  match l with
  | [] => []
  | [c] => [c]
  | a :: b :: rest =>
    if a = '/' && b = '*' then
      match h : findStarSlash rest with
      | some rest' => stripBlockComments rest'
      | none => a :: b :: rest
    else a :: stripBlockComments (b :: rest)
  termination_by l.length
  decreasing_by
  · have := findStarSlash_lt rest _ h
    simp only [List.length_cons]
    omega
  · simp only [List.length_cons]
    omega

/-- Drop characters up to (but not including) the first line terminator;
models the extent of `.` in `//.*`. -/
def dropLineRest (l : List Char) : List Char :=
  match l with
  | [] => []
  | c :: rest => if isNlChar c then c :: rest else dropLineRest rest

theorem dropLineRest_le (l : List Char) : (dropLineRest l).length ≤ l.length := by
  induction l with
  | nil => simp [dropLineRest]
  | cons c rest ih =>
    rw [dropLineRest]
    split
    · simp
    · simpa using Nat.le_trans ih (by simp)

/-- Second pass: remove from every `//` to the end of its line.
Matches JavaScript `replace(/\/\/.*/g, "")`. -/
def stripLineComments (l : List Char) : List Char :=
  match l with
  | [] => []
  | [c] => [c]
  | a :: b :: rest =>
    if a = '/' && b = '/' then stripLineComments (dropLineRest rest)
    else a :: stripLineComments (b :: rest)
  termination_by l.length
  decreasing_by
  · have := dropLineRest_le rest
    simp only [List.length_cons]
    omega
  · simp only [List.length_cons]
    omega

/-- Index of the last line terminator in `l`, if any. -/
def lastNlIdx (l : List Char) : Option Nat :=
  match l with
  | [] => none
  | c :: rest =>
    match lastNlIdx rest with
    | some i => some (i + 1)
    | none => if isNlChar c then some 0 else none

/-- Length of the `^\s*[\r\n]` match starting at a line-start position
(0 when there is no match): the prefix of the maximal whitespace run up to
and including its last line terminator. -/
def blankMatchLen (l : List Char) : Nat :=
  match lastNlIdx (l.takeWhile jsWs) with
  | some i => i + 1
  | none => 0

theorem blankMatchLen_le (l : List Char) : blankMatchLen l ≤ l.length := by
  rw [blankMatchLen]
  have htw : (l.takeWhile jsWs).length ≤ l.length := by
    simpa using List.length_le_of_sublist (List.takeWhile_sublist _)
  have hlt : ∀ (m : List Char) i, lastNlIdx m = some i → i < m.length := by
    intro m
    induction m with
    | nil => intro i h; simp [lastNlIdx] at h
    | cons c rest ih =>
      intro i h
      rw [lastNlIdx] at h
      split at h
      · cases h
        have := ih _ (by assumption)
        simp only [List.length_cons]
        omega
      · split at h
        · cases h; simp
        · cases h
  split
  · have := hlt _ _ (by assumption)
    omega
  · omega

/-- Third pass, worker: `atStart` is true exactly at `^` positions of the
`m`-flag (string start or just after a line terminator). -/
def stripBlankLinesGo (l : List Char) (atStart : Bool) : List Char :=
  match l with
  | [] => []
  | c :: rest =>
    if atStart then
      if 0 < blankMatchLen (c :: rest) then
        stripBlankLinesGo ((c :: rest).drop (blankMatchLen (c :: rest))) true
      else c :: stripBlankLinesGo rest (isNlChar c)
    else c :: stripBlankLinesGo rest (isNlChar c)
  termination_by l.length
  decreasing_by
  · simp only [List.length_drop, List.length_cons]
    omega
  all_goals simp only [List.length_cons]; omega

/-- Third pass: remove blank lines, `replace(/^\s*[\r\n]/gm, "")`. -/
def stripBlankLines (l : List Char) : List Char :=
  stripBlankLinesGo l true

/-- The whole post-processing pipeline of `generateWebsite` (`gemini.ts`
lines 154–158), also used on regenerated code in the streaming analyze
route. -/
def postProcessChars (l : List Char) : List Char :=
  stripBlankLines (stripLineComments (stripBlockComments l))

def postProcess (s : String) : String :=
  String.mk (postProcessChars s.toList)

/-! ## `detectShadcnImports` (generate-e2b route, lines 455–514) -/

/-- Single-quote character, used to build the JS string patterns. -/
def quoteChar : String := String.mk [Char.ofNat 39]

/-- The values of `componentMap` in object-literal insertion order
(duplicates included, as produced by `Object.entries`). -/
def componentMapValues : List String :=
  ["button", "card", "card", "card", "card", "card", "card", "input", "label",
   "textarea", "select", "checkbox", "radio-group", "switch", "slider",
   "progress", "badge", "avatar", "dialog", "sheet", "popover", "tooltip",
   "tabs", "accordion", "alert", "alert-dialog", "table", "separator",
   "scroll-area", "skeleton", "calendar", "command", "context-menu",
   "dropdown-menu", "hover-card", "menubar", "navigation-menu", "collapsible",
   "aspect-ratio", "toggle", "toggle-group"]

/-- The four `code.includes(...)` patterns tested for a package name. -/
def shadcnPatterns (p : String) : List String :=
  ["\"@/components/ui/" ++ p ++ "\"",
   quoteChar ++ "@/components/ui/" ++ p ++ quoteChar,
   "from \"@/components/ui/" ++ p,
   "from " ++ quoteChar ++ "@/components/ui/" ++ p]

/-- `detectShadcnImports`: JS `Set` insertion order is modelled by a fold that
appends a package name the first time one of its patterns matches. -/
def detectShadcnImports (code : String) : List String :=
  componentMapValues.foldl
    (fun acc p =>
      if (shadcnPatterns p).any (fun pat => strIncludes code pat) && !acc.contains p
      then acc ++ [p] else acc) []

/-! ## Data model of the streaming generation route -/

deriving instance DecidableEq for Except

/-- A remote sandbox handle: `sandboxId` and the host returned by
`getHost(3000)`. -/
structure Sbx where
  sandboxId : String
  host : String
  deriving DecidableEq

/-- Result of `sandbox.commands.run`. -/
structure CmdResult where
  exitCode : Int
  stdout : String
  stderr : String
  deriving DecidableEq

/-- A tool invocation requested by the model, bundled with the sandbox's
response to it (the environment decides the outcome; `Except` errors model
thrown exceptions caught by the per-tool `try/catch`). -/
inductive ToolEffect where
  | readFile (path : String) (outcome : Except String String)
  | writeFile (path content : String) (outcome : Except String Unit)
  | runCommand (command : String) (cwd : Option String) (outcome : Except String CmdResult)
  | listFiles (path : String) (outcome : Except String (List String))
  | taskCompleteCall (success : Bool) (message : String)
  | unknownTool (name : String)
  deriving DecidableEq

/-- One model turn: the requested tool calls (each paired with the outcome of
the `chat.sendMessage(functionResponse)` feeding its result back, which is a
fallible remote call), and the free text of the response. -/
structure AgentTurnE where
  calls : List (ToolEffect × Except String Unit)
  text : String

/-- Server-sent events emitted by the generate-e2b route. -/
inductive GEvent where
  | log (message : String)
  | codeEvt (code : String)
  | sandboxEvt (url sandboxId : String)
  | completeEvt (code url sandboxId : String) (success : Bool)
  | errorEvt (message : String)
  deriving DecidableEq

def GEvent.isTerminal : GEvent → Bool
  | .completeEvt _ _ _ _ => true
  | .errorEvt _ => true
  | _ => false

def GEvent.isCode : GEvent → Bool
  | .codeEvt _ => true
  | _ => false

def GEvent.isSandbox : GEvent → Bool
  | .sandboxEvt _ _ => true
  | _ => false

def GEvent.isError : GEvent → Bool
  | .errorEvt _ => true
  | _ => false

/-- Environment of one request: the outcome of every remote call the route
makes, in source order.  `turnOutcome i` is the model's response to the
iteration-`i` `chat.sendMessage` nudge. -/
structure GenEnv where
  genOutcome : Except String String
  existingSandboxId : Option String
  connectOutcome : Except Unit Sbx
  createOutcomeFresh : Except String Sbx
  createOutcomeFallback : Except String Sbx
  writeComponentOutcome : Except String Unit
  writePageOutcome : Except String Unit
  installOutcome : String → Except String CmdResult
  buildOutcome : Except String CmdResult
  turnOutcome : Nat → Except String AgentTurnE

/-- Mutable state of the agent loop (`iteration`, `taskComplete`,
`currentCode`), the events emitted inside the loop so far, and — as ghost
instrumentation for the specification — the tool calls dispatched so far. -/
structure AgentState where
  iteration : Nat
  taskComplete : Bool
  currentCode : String
  events : List GEvent
  dispatched : List ToolEffect
  deriving DecidableEq

/-- Events emitted while dispatching one tool call (the `switch` in the route,
lines 299–382). -/
def effEvents : ToolEffect → List GEvent
  | .readFile p _ => [.log ("📖 Reading " ++ p ++ "...")]
  | .writeFile p c (.ok _) =>
    if strIncludes p "component.tsx"
    then [.log ("📝 Writing " ++ p ++ "..."), .codeEvt c]
    else [.log ("📝 Writing " ++ p ++ "...")]
  | .writeFile p _ (.error _) => [.log ("📝 Writing " ++ p ++ "...")]
  | .runCommand cmd _ (.ok r) =>
    if strIncludes cmd "npm run build" && r.exitCode == 0
    then [.log ("⚡ Running: " ++ cmd), .log "✅ Build successful!"]
    else [.log ("⚡ Running: " ++ cmd)]
  | .runCommand cmd _ (.error _) => [.log ("⚡ Running: " ++ cmd)]
  | .listFiles p _ => [.log ("📁 Listing " ++ p ++ "...")]
  | .taskCompleteCall s m =>
    [.log (if s then "✅ Agent completed successfully!" else "⚠️ " ++ m)]
  | .unknownTool _ => []

/-- `currentCode` after one tool call: updated exactly when a `write_file`
succeeds and its path contains `"component.tsx"` (route line 321). -/
def effNewCode (cur : String) : ToolEffect → String
  | .writeFile p c (.ok _) => if strIncludes p "component.tsx" then c else cur
  | _ => cur

/-- Whether the call is `task_complete` (sets `taskComplete` regardless of its
`success` argument, route line 370). -/
def effIsTC : ToolEffect → Bool
  | .taskCompleteCall _ _ => true
  | _ => false

/-- The `toolResult` string sent back to the model. -/
def effResult : ToolEffect → String
  | .readFile _ (.ok content) => content
  | .readFile _ (.error e) => "Error: " ++ e
  | .writeFile _ _ (.ok _) => "File written successfully"
  | .writeFile _ _ (.error e) => "Error: " ++ e
  | .runCommand _ _ (.ok r) =>
    "Exit code: " ++ toString r.exitCode ++ "\nOutput:\n" ++ r.stdout ++ r.stderr
  | .runCommand _ _ (.error e) => "Error: " ++ e
  | .listFiles _ (.ok fs) => String.intercalate "\n" fs
  | .listFiles _ (.error e) => "Error: " ++ e
  | .taskCompleteCall _ _ => "Task marked complete"
  | .unknownTool n => "Unknown tool: " ++ n

/-- Dispatch one tool call (the route's `switch`). -/
def dispatchCall (st : AgentState) (eff : ToolEffect) : AgentState × String :=
  ({ iteration := st.iteration,
     taskComplete := st.taskComplete || effIsTC eff,
     currentCode := effNewCode st.currentCode eff,
     events := st.events ++ effEvents eff,
     dispatched := st.dispatched ++ [eff] }, effResult eff)

/-- Process the turn's tool calls in order, feeding each result back; a throw
of the feedback `sendMessage` aborts the request (propagates to the outer
`catch`). -/
def processCalls (st : AgentState) :
    List (ToolEffect × Except String Unit) → AgentState × Option String
  | [] => (st, none)
  | (eff, feed) :: rest =>
    let st' := (dispatchCall st eff).1
    match feed with
    | .error e => (st', some e)
    | .ok _ => processCalls st' rest

/-- Iteration ceiling of the tool-calling repair loop (route line 279). -/
def MAX_ITERATIONS : Nat := 20

/-- Tool effects actually processed from a turn's call list: everything up to
and including the first call whose feedback `sendMessage` throws. -/
def callsEffects : List (ToolEffect × Except String Unit) → List ToolEffect × Option String
  | [] => ([], none)
  | (eff, .ok _) :: rest =>
    (eff :: (callsEffects rest).1, (callsEffects rest).2)
  | (eff, .error e) :: _ => ([eff], some e)

/-- Event for the per-iteration log line (route line 284). -/
def iterLogMsg (i : Nat) : GEvent :=
  .log ("🤖 Agent iteration " ++ toString i ++ "...")

/-- Event for the free-text log of a turn with no tool calls (route line 396). -/
def chatLogMsg (t : String) : GEvent :=
  .log ("💬 " ++ String.mk (t.toList.take 100) ++ "...")

/-- The repair loop (route lines 282–399), with `fuel` as the structural
bound; called with `fuel = MAX_ITERATIONS` and `iteration = 0`, so the `while`
guard, not the fuel, decides termination. -/
def agentLoopGo (env : GenEnv) : Nat → AgentState → AgentState × Option String
  | 0, st => (st, none)
  | fuel + 1, st =>
    if st.iteration < MAX_ITERATIONS && !st.taskComplete then
      match env.turnOutcome (st.iteration + 1) with
      | .error e =>
        ({ st with iteration := st.iteration + 1,
                   events := st.events ++ [iterLogMsg (st.iteration + 1)] }, some e)
      | .ok turn =>
        if turn.calls.isEmpty then
          agentLoopGo env fuel
            (if turn.text = "" then
               { st with iteration := st.iteration + 1,
                         events := st.events ++ [iterLogMsg (st.iteration + 1)] }
             else
               { st with iteration := st.iteration + 1,
                         events := st.events ++
                           [iterLogMsg (st.iteration + 1), chatLogMsg turn.text] })
        else
          match processCalls
              { st with iteration := st.iteration + 1,
                        events := st.events ++ [iterLogMsg (st.iteration + 1)] }
              turn.calls with
          | (st2, some e) => (st2, some e)
          | (st2, none) => agentLoopGo env fuel st2
    else (st, none)

/-- Initial loop state: `currentCode = generatedCode` (route line 234). -/
def initAgentState (g : String) : AgentState :=
  { iteration := 0, taskComplete := false, currentCode := g,
    events := [], dispatched := [] }

def agentLoop (env : GenEnv) (g : String) : AgentState × Option String :=
  agentLoopGo env MAX_ITERATIONS (initAgentState g)

/-! ## The route body as an event-trace function -/

/-- `setupNewSandbox` (route lines 441–453): fire-and-forget dev server, fixed
grace period, endpoint from `getHost(3000)`.  Emits two logs, cannot throw. -/
def setupNewSandboxEvents : List GEvent :=
  [.log "🚀 Starting dev server...", .log "✅ Dev server ready"]

def sbxUrl (s : Sbx) : String := "https://" ++ s.host

/-- Sandbox acquisition (route lines 179–203): connect to `existingSandboxId`
with fallback to a fresh create, or create directly. -/
def acquireSandbox (env : GenEnv) : List GEvent × Except String (Sbx × String) :=
  match env.existingSandboxId with
  | some _ =>
    match env.connectOutcome with
    | .ok s =>
      ([.log "📝 Connecting to existing sandbox...", .log "✅ Connected to sandbox"],
       .ok (s, sbxUrl s))
    | .error _ =>
      match env.createOutcomeFallback with
      | .error e =>
        ([.log "📝 Connecting to existing sandbox...",
          .log "⚠️ Could not connect, creating new sandbox..."], .error e)
      | .ok s =>
        ([.log "📝 Connecting to existing sandbox...",
          .log "⚠️ Could not connect, creating new sandbox..."] ++ setupNewSandboxEvents,
         .ok (s, sbxUrl s))
  | none =>
    match env.createOutcomeFresh with
    | .error e => ([.log "🚀 Creating new sandbox..."], .error e)
    | .ok s =>
      ([.log "🚀 Creating new sandbox..."] ++ setupNewSandboxEvents, .ok (s, sbxUrl s))

/-- First thrown error of the sequential shadcn install loop, if any. -/
def firstErr : List (Except String CmdResult) → Option String
  | [] => none
  | .error e :: _ => some e
  | .ok _ :: rest => firstErr rest

/-- The shadcn install loop (route lines 217–226). -/
def runInstalls (env : GenEnv) (comps : List String) : List GEvent × Option String :=
  if comps.isEmpty then ([], none)
  else
    ([.log ("📦 Installing shadcn: " ++ String.intercalate ", " comps ++ "...")],
     firstErr (comps.map env.installOutcome))

/-- Terminal events of a successful body (route lines 408–420): the `complete`
event's `success` field is the literal `true`. -/
def finishEvents (code url id : String) : List GEvent :=
  [.log ("🎉 Preview ready at " ++ url), .sandboxEvt url id,
   .completeEvt code url id true]

/-- Build check and repair loop (route lines 228–406 continued). -/
def genLoopStage (env : GenEnv) (g : String) (sbx : Sbx) (url : String) :
    List GEvent × Option String :=
  match env.buildOutcome with
  | .error e => ([.log "🔨 Checking build..."], some e)
  | .ok br =>
    if br.exitCode == 0 then
      ([.log "🔨 Checking build...", .log "✅ Build successful on first try!"] ++
        finishEvents g url sbx.sandboxId, none)
    else
      match agentLoop env g with
      | (stF, some e) =>
        ([.log "🔨 Checking build...",
          .log "⚠️ Build errors detected, starting autonomous fix agent..."] ++
          stF.events, some e)
      | (stF, none) =>
        ([.log "🔨 Checking build...",
          .log "⚠️ Build errors detected, starting autonomous fix agent..."] ++
          stF.events ++
          (if stF.taskComplete then [] else [.log "⚠️ Max iterations reached"]) ++
          finishEvents stF.currentCode url sbx.sandboxId, none)

/-- Component and page writes, dependency installs, then the build/loop stage
(route lines 205–226 continued). -/
def genWriteStage (env : GenEnv) (g : String) (sbx : Sbx) (url : String) :
    List GEvent × Option String :=
  match env.writeComponentOutcome with
  | .error e => ([.log "📝 Writing component..."], some e)
  | .ok _ =>
    match env.writePageOutcome with
    | .error e => ([.log "📝 Writing component..."], some e)
    | .ok _ =>
      match runInstalls env (detectShadcnImports g) with
      | (ievs, some e) => ([.log "📝 Writing component..."] ++ ievs, some e)
      | (ievs, none) =>
        match genLoopStage env g sbx url with
        | (levs, res) => ([.log "📝 Writing component..."] ++ ievs ++ levs, res)

/-- The `try`-block of the stream body (route lines 127–422): all events
emitted before either normal completion (`none`) or a throw (`some msg`). -/
def genBody (env : GenEnv) : List GEvent × Option String :=
  match env.genOutcome with
  | .error e => ([.log "🎨 Generating component from your drawing..."], some e)
  | .ok text =>
    match extractCodeFromResponse text with
    | none =>
      ([.log "🎨 Generating component from your drawing..."],
       some "Failed to extract code from AI response")
    | some g =>
      if g = "" then
        ([.log "🎨 Generating component from your drawing..."],
         some "Failed to extract code from AI response")
      else
        match acquireSandbox env with
        | (aevs, .error e) =>
          ([.log "🎨 Generating component from your drawing...",
            .log "✅ Initial code generated", .codeEvt g] ++ aevs, some e)
        | (aevs, .ok (sbx, url)) =>
          match genWriteStage env g sbx url with
          | (wevs, res) =>
            ([.log "🎨 Generating component from your drawing...",
              .log "✅ Initial code generated", .codeEvt g] ++ aevs ++ wevs, res)

/-- The whole stream of one generate-e2b request: the body wrapped in the
`catch` handler (route lines 423–428), which logs and emits the single
`error` event. -/
def generateE2B (env : GenEnv) : List GEvent :=
  match genBody env with
  | (evs, none) => evs
  | (evs, some msg) => evs ++ [.log ("❌ Error: " ++ msg), .errorEvt msg]

/-! ## Trace queries -/

def terminalCount (l : List GEvent) : Nat :=
  l.countP (fun e => e.isTerminal)

def endsWithTerminal (l : List GEvent) : Bool :=
  match l.getLast? with
  | some e => e.isTerminal
  | none => false

/-- Payloads of all `complete` events, in order. -/
def completePayloads (l : List GEvent) : List (String × String × String × Bool) :=
  l.filterMap fun e =>
    match e with
    | .completeEvt c u i s => some (c, u, i, s)
    | _ => none

/-- Payloads of all `code` events, in order. -/
def codesOf (l : List GEvent) : List String :=
  l.filterMap fun e =>
    match e with
    | .codeEvt c => some c
    | _ => none

/-- Payload of the most recently emitted `code` event. -/
def lastCodePayload (l : List GEvent) : Option String :=
  (codesOf l).getLast?

/-- Contents of the successful `write_file` calls whose path contains
`"component.tsx"`, in dispatch order. -/
def componentWrites (l : List ToolEffect) : List String :=
  l.filterMap fun e =>
    match e with
    | .writeFile p c (.ok _) =>
      if strIncludes p "component.tsx" then some c else none
    | _ => none

/-- Whether a `task_complete` call occurs in the list. -/
def hasTC (l : List ToolEffect) : Bool :=
  l.any effIsTC

/-! ## Sandbox pool (`lib/e2b-sandbox.ts`) and the init/kill routes -/

/-- `E2BSandboxSession` (logs omitted: they never influence control flow). -/
structure E2BSession where
  sbx : Sbx
  url : String
  isReady : Bool
  isDevServerRunning : Bool
  deriving DecidableEq

/-- Module-level state: the `activeSandboxes` map (association list in
insertion order) and `prewarmedSandboxId`. -/
structure PoolState where
  activeSandboxes : List (String × E2BSession)
  prewarmedSandboxId : Option String
  deriving DecidableEq

/-- `activeSandboxes.get(id)`. -/
def lookupSession (st : PoolState) (id : String) : Option E2BSession :=
  (st.activeSandboxes.find? (fun p => p.1 = id)).map Prod.snd

/-- `activeSandboxes.set(id, v)`. -/
def mapSet (m : List (String × E2BSession)) (k : String) (v : E2BSession) :
    List (String × E2BSession) :=
  if m.any (fun p => p.1 = k) then
    m.map (fun p => if p.1 = k then (k, v) else p)
  else m ++ [(k, v)]

/-- `activeSandboxes.delete(id)`. -/
def mapDelete (m : List (String × E2BSession)) (k : String) :
    List (String × E2BSession) :=
  m.filter (fun p => !(p.1 = k))

/-- `getPrewarmedSandbox` (`e2b-sandbox.ts` lines 274–277). -/
def getPrewarmedSandbox (st : PoolState) : Option E2BSession :=
  match st.prewarmedSandboxId with
  | none => none
  | some id => lookupSession st id

/-- Environment of one `prewarmSandbox` call. -/
structure PrewarmEnv where
  apiKeyPresent : Bool
  createOutcome : Except String Sbx

/-- Return value of `prewarmSandbox`. -/
structure PrewarmResult where
  success : Bool
  sandboxId : Option String
  url : Option String
  error : Option String
  deriving DecidableEq

/-- `prewarmSandbox` (`e2b-sandbox.ts` lines 210–269): create, register the
session, remember the id in `prewarmedSandboxId`. -/
def prewarmSandbox (env : PrewarmEnv) (st : PoolState) : PrewarmResult × PoolState :=
  if !env.apiKeyPresent then
    ({ success := false, sandboxId := none, url := none,
       error := some "E2B_API_KEY not configured" }, st)
  else
    match env.createOutcome with
    | .error e =>
      ({ success := false, sandboxId := none, url := none, error := some e }, st)
    | .ok s =>
      let url := "https://" ++ s.host
      ({ success := true, sandboxId := some s.sandboxId, url := some url,
         error := none },
       { activeSandboxes :=
           mapSet st.activeSandboxes s.sandboxId
             ⟨s, url, true, true⟩,
         prewarmedSandboxId := some s.sandboxId })

/-- Response of the `sandbox-init` POST route. -/
structure InitResponse where
  success : Bool
  sandboxId : Option String
  cached : Bool
  status : Nat
  deriving DecidableEq

/-- `sandbox-init` `POST` (route lines 4–37): return the cached pre-warmed
session if present, otherwise pre-warm. -/
def sandboxInitPOST (env : PrewarmEnv) (st : PoolState) : InitResponse × PoolState :=
  match getPrewarmedSandbox st with
  | some sess =>
    ({ success := true, sandboxId := some sess.sbx.sandboxId, cached := true,
       status := 200 }, st)
  | none =>
    match prewarmSandbox env st with
    | (r, st') =>
      if r.success then
        ({ success := true, sandboxId := r.sandboxId, cached := false,
           status := 200 }, st')
      else
        ({ success := false, sandboxId := none, cached := false,
           status := 500 }, st')

/-- `closeSandbox` (`e2b-sandbox.ts` lines 136–146).  Returns the new state
and whether a remote `kill()` was attempted; a throwing `kill` is swallowed
(and skips the `delete`). -/
def closeSandbox (st : PoolState) (killOutcome : Except String Unit) (id : String) :
    PoolState × Bool :=
  match lookupSession st id with
  | none => (st, false)
  | some _ =>
    match killOutcome with
    | .ok _ => ({ st with activeSandboxes := mapDelete st.activeSandboxes id }, true)
    | .error _ => (st, true)

/-- Response of the `sandbox-kill` POST route. -/
structure KillResponse where
  success : Bool
  killed : Option String
  deriving DecidableEq

/-- `sandbox-kill` `POST` (route lines 9–28): kill the named sandbox, else the
pre-warmed one.  Returns (response, new state, whether a remote kill was
attempted). -/
def sandboxKillPOST (st : PoolState) (killOutcome : Except String Unit)
    (sandboxId : Option String) : KillResponse × PoolState × Bool :=
  match sandboxId with
  | some id =>
    match closeSandbox st killOutcome id with
    | (st', attempted) => ({ success := true, killed := some id }, st', attempted)
  | none =>
    match getPrewarmedSandbox st with
    | some sess =>
      let id := sess.sbx.sandboxId
      let st1 : PoolState := { st with prewarmedSandboxId := none }
      match closeSandbox st1 killOutcome id with
      | (st2, attempted) => ({ success := true, killed := some id }, st2, attempted)
    | none => ({ success := true, killed := none }, st, false)

/-! ## Lemmas about the dispatch table and the repair loop -/

def noTerminalEvents (l : List GEvent) : Bool :=
  l.all (fun e => !e.isTerminal)

theorem codesOf_append (a b : List GEvent) :
    codesOf (a ++ b) = codesOf a ++ codesOf b := by
  simp [codesOf]

theorem componentWrites_append (a b : List ToolEffect) :
    componentWrites (a ++ b) = componentWrites a ++ componentWrites b := by
  simp [componentWrites]

theorem noTerminalEvents_append (a b : List GEvent) :
    noTerminalEvents (a ++ b) = (noTerminalEvents a && noTerminalEvents b) := by
  simp [noTerminalEvents]

theorem effEvents_codes (e : ToolEffect) :
    codesOf (effEvents e) = componentWrites [e] := by
  cases e <;> simp [effEvents, componentWrites, codesOf]
  case writeFile p c outcome =>
    cases outcome <;> simp [List.filterMap]
    split <;> simp [List.filterMap]
  case runCommand cmd cwd outcome =>
    cases outcome <;> simp [List.filterMap]
    split <;> simp [List.filterMap]

theorem effEvents_noTerminal (e : ToolEffect) :
    noTerminalEvents (effEvents e) = true := by
  cases e <;> simp [effEvents, noTerminalEvents, GEvent.isTerminal]
  case writeFile p c outcome =>
    cases outcome <;> simp
    split <;> simp [GEvent.isTerminal]
  case runCommand cmd cwd outcome =>
    cases outcome <;> simp [GEvent.isTerminal]
    split <;> simp [GEvent.isTerminal]

theorem effNewCode_eq (cur : String) (e : ToolEffect) :
    effNewCode cur e = ((componentWrites [e]).getLast?).getD cur := by
  cases e <;> simp [effNewCode, componentWrites, List.filterMap]
  case writeFile p c outcome =>
    cases outcome <;> simp [List.filterMap]
    split <;> simp [List.filterMap]

theorem getLastD_append (x y : List String) (c : String) :
    ((x ++ y).getLast?).getD c = (y.getLast?).getD ((x.getLast?).getD c) := by
  rcases y.eq_nil_or_concat with h | ⟨ys, a, rfl⟩
  · subst h; simp
  · simp only [List.concat_eq_append, ← List.append_assoc]
    simp [List.getLast?_concat]

theorem foldl_effNewCode (ds : List ToolEffect) :
    ∀ cur, ds.foldl effNewCode cur = ((componentWrites ds).getLast?).getD cur := by
  induction ds with
  | nil => intro cur; simp [componentWrites]
  | cons e ds ih =>
    intro cur
    rw [List.foldl_cons, ih, effNewCode_eq]
    have : componentWrites (e :: ds) = componentWrites [e] ++ componentWrites ds := by
      simpa using componentWrites_append [e] ds
    rw [this, getLastD_append]

theorem joinEffEvents_codes (ds : List ToolEffect) :
    codesOf ((ds.map effEvents).join) = componentWrites ds := by
  induction ds with
  | nil => simp [codesOf, componentWrites]
  | cons e ds ih =>
    have : componentWrites (e :: ds) = componentWrites [e] ++ componentWrites ds := by
      simpa using componentWrites_append [e] ds
    simp only [List.map_cons, List.join_cons, codesOf_append, ih, this, effEvents_codes]

theorem joinEffEvents_noTerminal (ds : List ToolEffect) :
    noTerminalEvents ((ds.map effEvents).join) = true := by
  induction ds with
  | nil => simp [noTerminalEvents]
  | cons e ds ih =>
    simp only [List.map_cons, List.join_cons, noTerminalEvents_append,
      effEvents_noTerminal, ih, Bool.and_self]

theorem processCalls_spec (cs : List (ToolEffect × Except String Unit)) :
    ∀ st : AgentState,
      processCalls st cs =
        ({ iteration := st.iteration,
           taskComplete := st.taskComplete || hasTC (callsEffects cs).1,
           currentCode := (callsEffects cs).1.foldl effNewCode st.currentCode,
           events := st.events ++ ((callsEffects cs).1.map effEvents).join,
           dispatched := st.dispatched ++ (callsEffects cs).1 },
         (callsEffects cs).2) := by
  induction cs with
  | nil => intro st; simp [processCalls, callsEffects, hasTC]
  | cons hd rest ih =>
    intro st
    obtain ⟨eff, feed⟩ := hd
    cases feed with
    | error e =>
      simp [processCalls, callsEffects, dispatchCall, hasTC]
    | ok u =>
      simp only [processCalls, callsEffects, ih, dispatchCall, hasTC,
        List.any_cons, List.foldl_cons, List.map_cons, List.join_cons,
        List.append_assoc, List.cons_append, Bool.or_assoc]
      simp


/-- Master invariant of the repair loop: the run appends a list `ds` of
dispatched effects and a list `E` of events; `taskComplete`, `currentCode`
and the `code` events are determined by `ds`; the iteration counter grows by
at most `fuel` and never passes the ceiling; no terminal event is emitted. -/
theorem agentLoopGo_spec (env : GenEnv) :
    ∀ (fuel : Nat) (st : AgentState),
      ∃ (ds : List ToolEffect) (E : List GEvent),
        (agentLoopGo env fuel st).1.dispatched = st.dispatched ++ ds ∧
        (agentLoopGo env fuel st).1.events = st.events ++ E ∧
        (agentLoopGo env fuel st).1.taskComplete = (st.taskComplete || hasTC ds) ∧
        (agentLoopGo env fuel st).1.currentCode = ds.foldl effNewCode st.currentCode ∧
        codesOf E = componentWrites ds ∧
        noTerminalEvents E = true ∧
        st.iteration ≤ (agentLoopGo env fuel st).1.iteration ∧
        (agentLoopGo env fuel st).1.iteration ≤ st.iteration + fuel ∧
        (st.iteration ≤ MAX_ITERATIONS →
          (agentLoopGo env fuel st).1.iteration ≤ MAX_ITERATIONS) := by
  intro fuel
  induction fuel with
  | zero =>
    intro st
    refine ⟨[], [], ?_⟩
    simp [agentLoopGo, hasTC, codesOf, componentWrites, noTerminalEvents]
  | succ fuel ih =>
    intro st
    by_cases hg : (st.iteration < MAX_ITERATIONS && !st.taskComplete) = true
    · have hit : st.iteration < MAX_ITERATIONS := by
        simp only [Bool.and_eq_true, decide_eq_true_eq] at hg
        exact hg.1
      rw [agentLoopGo, if_pos hg]
      cases hturn : env.turnOutcome (st.iteration + 1) with
      | error e =>
        refine ⟨[], [iterLogMsg (st.iteration + 1)], ?_⟩
        refine ⟨by simp, by simp, by simp [hasTC], by simp, ?_, ?_, ?_, ?_, ?_⟩
        · simp [codesOf, componentWrites, iterLogMsg]
        · simp [noTerminalEvents, iterLogMsg, GEvent.isTerminal]
        · simp
        · simp
        · intro _; simpa using hit
      | ok turn =>
        dsimp only
        by_cases hcalls : turn.calls.isEmpty = true
        · rw [if_pos hcalls]
          by_cases htext : turn.text = ""
          · rw [if_pos htext]
            obtain ⟨ds, E, h1, h2, h3, h4, h5, h6, h7, h8, h9⟩ :=
              ih { st with iteration := st.iteration + 1,
                           events := st.events ++ [iterLogMsg (st.iteration + 1)] }
            refine ⟨ds, iterLogMsg (st.iteration + 1) :: E, ?_⟩
            simp only at h1 h2 h3 h4 h7 h8 h9
            refine ⟨by simpa using h1, by simpa using h2, h3, h4, ?_, ?_, ?_, ?_, ?_⟩
            · simpa [codesOf, iterLogMsg] using h5
            · simpa [noTerminalEvents, iterLogMsg, GEvent.isTerminal] using h6
            · omega
            · omega
            · intro _; exact h9 (by omega)
          · rw [if_neg htext]
            obtain ⟨ds, E, h1, h2, h3, h4, h5, h6, h7, h8, h9⟩ :=
              ih { st with iteration := st.iteration + 1,
                           events := st.events ++
                             [iterLogMsg (st.iteration + 1), chatLogMsg turn.text] }
            refine ⟨ds, iterLogMsg (st.iteration + 1) :: chatLogMsg turn.text :: E, ?_⟩
            simp only at h1 h2 h3 h4 h7 h8 h9
            refine ⟨by simpa using h1, by simpa using h2, h3, h4, ?_, ?_, ?_, ?_, ?_⟩
            · simpa [codesOf, iterLogMsg, chatLogMsg] using h5
            · simpa [noTerminalEvents, iterLogMsg, chatLogMsg, GEvent.isTerminal] using h6
            · omega
            · omega
            · intro _; exact h9 (by omega)
        · rw [if_neg hcalls]
          rw [processCalls_spec]
          cases hce : (callsEffects turn.calls).2 with
          | some e =>
            refine ⟨(callsEffects turn.calls).1,
              iterLogMsg (st.iteration + 1) ::
                ((callsEffects turn.calls).1.map effEvents).join, ?_⟩
            refine ⟨by simp, by simp, by simp [hasTC], by simp, ?_, ?_, ?_, ?_, ?_⟩
            · have := joinEffEvents_codes (callsEffects turn.calls).1
              simpa [codesOf, iterLogMsg] using this
            · have := joinEffEvents_noTerminal (callsEffects turn.calls).1
              simpa [noTerminalEvents, iterLogMsg, GEvent.isTerminal] using this
            · simp
            · simp
            · intro _; simpa using hit
          | none =>
            obtain ⟨ds, E, h1, h2, h3, h4, h5, h6, h7, h8, h9⟩ :=
              ih { iteration := st.iteration + 1,
                   taskComplete := st.taskComplete || hasTC (callsEffects turn.calls).1,
                   currentCode := (callsEffects turn.calls).1.foldl effNewCode st.currentCode,
                   events := (st.events ++ [iterLogMsg (st.iteration + 1)]) ++
                     ((callsEffects turn.calls).1.map effEvents).join,
                   dispatched := st.dispatched ++ (callsEffects turn.calls).1 }
            refine ⟨(callsEffects turn.calls).1 ++ ds,
              iterLogMsg (st.iteration + 1) ::
                (((callsEffects turn.calls).1.map effEvents).join ++ E), ?_⟩
            simp only at h1 h2 h3 h4 h7 h8 h9
            refine ⟨?_, ?_, ?_, ?_, ?_, ?_, ?_, ?_, ?_⟩
            · rw [h1, List.append_assoc]
            · rw [h2]; simp
            · rw [h3]; simp [hasTC, List.any_append, Bool.or_assoc]
            · rw [h4, List.foldl_append]
            · have hcd : codesOf (iterLogMsg (st.iteration + 1) ::
                  (((callsEffects turn.calls).1.map effEvents).join ++ E)) =
                  codesOf (((callsEffects turn.calls).1.map effEvents).join) ++ codesOf E := by
                simp [codesOf, iterLogMsg]
              rw [hcd, joinEffEvents_codes, h5, componentWrites_append]
            · have hj := joinEffEvents_noTerminal (callsEffects turn.calls).1
              simp only [noTerminalEvents] at h6 hj
              simp [noTerminalEvents, iterLogMsg, GEvent.isTerminal] at hj h6 ⊢
              exact ⟨hj, h6⟩
            · exact Nat.le_trans (Nat.le_succ _) h7
            · exact Nat.le_trans h8 (by omega)
            · intro _; exact h9 (by omega)
    · rw [agentLoopGo, if_neg hg]
      refine ⟨[], [], ?_⟩
      simp [hasTC, codesOf, componentWrites, noTerminalEvents]

/-- When the loop returns normally with enough fuel, it stopped because
`taskComplete` was set or the iteration ceiling was reached. -/
theorem agentLoopGo_exit (env : GenEnv) :
    ∀ (fuel : Nat) (st : AgentState),
      MAX_ITERATIONS ≤ st.iteration + fuel →
      (agentLoopGo env fuel st).2 = none →
      ((agentLoopGo env fuel st).1.taskComplete = true ∨
        MAX_ITERATIONS ≤ (agentLoopGo env fuel st).1.iteration) := by
  intro fuel
  induction fuel with
  | zero =>
    intro st hfe _
    simp only [agentLoopGo]
    omega
  | succ fuel ih =>
    intro st hfe hnone
    by_cases hg : (st.iteration < MAX_ITERATIONS && !st.taskComplete) = true
    · rw [agentLoopGo, if_pos hg] at hnone ⊢
      cases hturn : env.turnOutcome (st.iteration + 1) with
      | error e => rw [hturn] at hnone; simp at hnone
      | ok turn =>
        rw [hturn] at hnone
        dsimp only at hnone ⊢
        by_cases hcalls : turn.calls.isEmpty = true
        · rw [if_pos hcalls] at hnone ⊢
          by_cases htext : turn.text = ""
          · rw [if_pos htext] at hnone ⊢
            exact ih _ (by simp; omega) hnone
          · rw [if_neg htext] at hnone ⊢
            exact ih _ (by simp; omega) hnone
        · rw [if_neg hcalls] at hnone ⊢
          rw [processCalls_spec] at hnone ⊢
          cases hce : (callsEffects turn.calls).2 with
          | some e => rw [hce] at hnone; simp at hnone
          | none =>
            rw [hce] at hnone
            dsimp only at hnone ⊢
            exact ih _ (by simp; omega) hnone
    · rw [agentLoopGo, if_neg hg] at hnone ⊢
      simp only [Bool.and_eq_true, decide_eq_true_eq, Bool.not_eq_eq_eq_not,
        Bool.not_true, not_and] at hg
      by_cases hit : st.iteration < MAX_ITERATIONS
      · left
        have := hg hit
        simp only [Bool.not_eq_false] at this
        simpa using this
      · right
        simpa using Nat.le_of_not_lt hit

/-- `taskComplete` can only become true through a dispatched
`task_complete` call. -/
theorem agentLoopGo_tcOrigin (env : GenEnv) (fuel : Nat) (st : AgentState) :
    (agentLoopGo env fuel st).1.taskComplete = true →
    st.taskComplete = true ∨ hasTC (agentLoopGo env fuel st).1.dispatched = true := by
  obtain ⟨ds, E, h1, _, h3, _⟩ := agentLoopGo_spec env fuel st
  rw [h1, h3]
  intro h
  rcases Bool.or_eq_true_iff.mp h with h' | h'
  · exact Or.inl h'
  · right
    simp only [hasTC, List.any_append] at *
    simp [h']

/-- If every reachable model turn succeeds, requests no `task_complete`, and
all result feedbacks succeed, the loop neither throws nor completes. -/
theorem agentLoopGo_noTC (env : GenEnv) :
    ∀ (fuel : Nat) (st : AgentState),
      st.taskComplete = false →
      (∀ i, st.iteration < i → i ≤ st.iteration + fuel →
        ∃ t, env.turnOutcome i = Except.ok t ∧
          hasTC (callsEffects t.calls).1 = false ∧
          (callsEffects t.calls).2 = none) →
      (agentLoopGo env fuel st).2 = none ∧
      (agentLoopGo env fuel st).1.taskComplete = false := by
  intro fuel
  induction fuel with
  | zero =>
    intro st htc _
    simpa [agentLoopGo] using htc
  | succ fuel ih =>
    intro st htc hturns
    by_cases hg : (st.iteration < MAX_ITERATIONS && !st.taskComplete) = true
    · rw [agentLoopGo, if_pos hg]
      obtain ⟨t, hok, hnoTC, hfeed⟩ := hturns (st.iteration + 1) (by omega) (by omega)
      rw [hok]
      dsimp only
      by_cases hcalls : t.calls.isEmpty = true
      · rw [if_pos hcalls]
        split <;>
          exact ih _ (by simpa using htc)
            (fun i hi1 hi2 => hturns i (by simpa using Nat.lt_of_succ_lt hi1)
              (by simp at hi2 ⊢; omega))
      · rw [if_neg hcalls]
        rw [processCalls_spec, hfeed]
        dsimp only
        exact ih _ (by simp [htc, hnoTC])
          (fun i hi1 hi2 => hturns i (by simp at hi1; omega) (by simp at hi2 ⊢; omega))
    · rw [agentLoopGo, if_neg hg]
      exact ⟨rfl, htc⟩

/-! ## Shape of the route trace -/

theorem acquireSandbox_events (env : GenEnv) :
    noTerminalEvents (acquireSandbox env).1 = true ∧
    codesOf (acquireSandbox env).1 = [] := by
  unfold acquireSandbox
  cases env.existingSandboxId <;> cases env.connectOutcome <;>
    cases env.createOutcomeFresh <;> cases env.createOutcomeFallback <;>
      simp [noTerminalEvents, codesOf, GEvent.isTerminal, setupNewSandboxEvents]

theorem runInstalls_events (env : GenEnv) (comps : List String) :
    noTerminalEvents (runInstalls env comps).1 = true ∧
    codesOf (runInstalls env comps).1 = [] := by
  unfold runInstalls
  split <;> simp [noTerminalEvents, codesOf, GEvent.isTerminal]

theorem agentLoop_events_spec (env : GenEnv) (g : String) :
    noTerminalEvents (agentLoop env g).1.events = true ∧
    codesOf (agentLoop env g).1.events =
      componentWrites (agentLoop env g).1.dispatched ∧
    (agentLoop env g).1.currentCode =
      ((componentWrites (agentLoop env g).1.dispatched).getLast?).getD g ∧
    (agentLoop env g).1.iteration ≤ MAX_ITERATIONS := by
  obtain ⟨ds, E, h1, h2, h3, h4, h5, h6, h7, h8, h9⟩ :=
    agentLoopGo_spec env MAX_ITERATIONS (initAgentState g)
  simp only [initAgentState] at h1 h2 h3 h4 h9
  simp only [agentLoop, initAgentState]
  rw [h1, h2, h4]
  refine ⟨by simpa using h6, ?_, ?_, h9 (by omega)⟩
  · simpa using h5
  · simp only [List.nil_append]
    exact foldl_effNewCode ds g

/-- Shape invariant of the `try`-block result: if it throws, no terminal event
was emitted; if it returns, the events end with exactly one `complete`. -/
def bodyShape : List GEvent × Option String → Prop
  | (evs, some _) => noTerminalEvents evs = true
  | (evs, none) =>
    ∃ pre c u i s, evs = pre ++ [GEvent.completeEvt c u i s] ∧
      noTerminalEvents pre = true

theorem bodyShape_prepend (pre : List GEvent) (t : List GEvent × Option String)
    (hpre : noTerminalEvents pre = true) (ht : bodyShape t) :
    bodyShape (pre ++ t.1, t.2) := by
  obtain ⟨evs, err⟩ := t
  cases err with
  | none =>
    obtain ⟨pre0, c, u, i, s, he, hnt⟩ := ht
    refine ⟨pre ++ pre0, c, u, i, s, ?_, ?_⟩
    · rw [he, List.append_assoc]
    · rw [noTerminalEvents_append, hpre, hnt]; rfl
  | some e =>
    simp only [bodyShape] at ht ⊢
    rw [noTerminalEvents_append, hpre, ht]; rfl

theorem noTerminalEvents_nil : noTerminalEvents [] = true := rfl

theorem noTerminalEvents_cons (e : GEvent) (l : List GEvent) :
    noTerminalEvents (e :: l) = (!e.isTerminal && noTerminalEvents l) := by
  simp [noTerminalEvents]

theorem isTerminal_log (m : String) : (GEvent.log m).isTerminal = false := rfl

theorem isTerminal_code (c : String) : (GEvent.codeEvt c).isTerminal = false := rfl

theorem isTerminal_sandbox (u i : String) :
    (GEvent.sandboxEvt u i).isTerminal = false := rfl

theorem genLoopStage_shape (env : GenEnv) (g : String) (sbx : Sbx) (url : String) :
    bodyShape (genLoopStage env g sbx url) := by
  unfold genLoopStage
  cases env.buildOutcome with
  | error e =>
    simp [bodyShape, noTerminalEvents_cons, noTerminalEvents_nil, isTerminal_log]
  | ok br =>
    dsimp only
    by_cases hz : (br.exitCode == 0) = true
    · rw [if_pos hz]
      refine ⟨[.log "🔨 Checking build...", .log "✅ Build successful on first try!",
        .log ("🎉 Preview ready at " ++ url), .sandboxEvt url sbx.sandboxId],
        g, url, sbx.sandboxId, true, ?_, ?_⟩
      · simp [finishEvents]
      · simp only [noTerminalEvents_cons, noTerminalEvents_nil, isTerminal_log,
          isTerminal_sandbox, Bool.not_false, Bool.true_and, Bool.and_true]
    · rw [if_neg hz]
      rcases hL : agentLoop env g with ⟨stF, res⟩
      have hNT : noTerminalEvents stF.events = true := by
        have := (agentLoop_events_spec env g).1
        rw [hL] at this
        exact this
      cases res with
      | some e =>
        simp only [bodyShape, noTerminalEvents_append, noTerminalEvents_cons,
          noTerminalEvents_nil, isTerminal_log, Bool.not_false, Bool.true_and,
          Bool.and_true, hNT]
      | none =>
        refine ⟨[.log "🔨 Checking build...",
          .log "⚠️ Build errors detected, starting autonomous fix agent..."] ++
          stF.events ++
          (if stF.taskComplete then [] else [.log "⚠️ Max iterations reached"]) ++
          [.log ("🎉 Preview ready at " ++ url), .sandboxEvt url sbx.sandboxId],
          stF.currentCode, url, sbx.sandboxId, true, ?_, ?_⟩
        · simp [finishEvents]
        · simp only [noTerminalEvents_append, noTerminalEvents_cons,
            noTerminalEvents_nil, isTerminal_log, isTerminal_sandbox,
            Bool.not_false, Bool.true_and, Bool.and_true, hNT]
          split <;>
            simp [noTerminalEvents_cons, noTerminalEvents_nil, isTerminal_log]

theorem genWriteStage_shape (env : GenEnv) (g : String) (sbx : Sbx) (url : String) :
    bodyShape (genWriteStage env g sbx url) := by
  unfold genWriteStage
  cases env.writeComponentOutcome with
  | error e =>
    simp [bodyShape, noTerminalEvents_cons, noTerminalEvents_nil, isTerminal_log]
  | ok _ =>
    dsimp only
    cases env.writePageOutcome with
    | error e =>
      simp [bodyShape, noTerminalEvents_cons, noTerminalEvents_nil, isTerminal_log]
    | ok _ =>
      dsimp only
      rcases hI : runInstalls env (detectShadcnImports g) with ⟨ievs, ierr⟩
      have hint : noTerminalEvents ievs = true := by
        have := (runInstalls_events env (detectShadcnImports g)).1
        rw [hI] at this
        exact this
      cases ierr with
      | some e =>
        simp only [bodyShape, noTerminalEvents_append, noTerminalEvents_cons,
          noTerminalEvents_nil, isTerminal_log, Bool.not_false, Bool.true_and,
          Bool.and_true, hint]
      | none =>
        rcases hLS : genLoopStage env g sbx url with ⟨levs, res⟩
        have hbs := genLoopStage_shape env g sbx url
        rw [hLS] at hbs
        have hsh := bodyShape_prepend
          ([.log "📝 Writing component..."] ++ ievs) (levs, res)
          (by simp only [noTerminalEvents_append, noTerminalEvents_cons,
                noTerminalEvents_nil, isTerminal_log, Bool.not_false,
                Bool.true_and, Bool.and_true, hint])
          hbs
        simpa using hsh

theorem genBody_shape (env : GenEnv) : bodyShape (genBody env) := by
  unfold genBody
  cases env.genOutcome with
  | error e =>
    simp [bodyShape, noTerminalEvents_cons, noTerminalEvents_nil, isTerminal_log]
  | ok text =>
    dsimp only
    cases extractCodeFromResponse text with
    | none =>
      simp [bodyShape, noTerminalEvents_cons, noTerminalEvents_nil, isTerminal_log]
    | some g =>
      dsimp only
      by_cases hg : g = ""
      · rw [if_pos hg]
        simp [bodyShape, noTerminalEvents_cons, noTerminalEvents_nil, isTerminal_log]
      · rw [if_neg hg]
        rcases hA : acquireSandbox env with ⟨aevs, ares⟩
        have hant : noTerminalEvents aevs = true := by
          have := (acquireSandbox_events env).1
          rw [hA] at this
          exact this
        cases ares with
        | error e =>
          dsimp only
          simp only [bodyShape, noTerminalEvents_append, noTerminalEvents_cons,
            noTerminalEvents_nil, isTerminal_log, isTerminal_code,
            Bool.not_false, Bool.true_and, Bool.and_true, hant]
        | ok p =>
          obtain ⟨sbx, url⟩ := p
          dsimp only
          rcases hW : genWriteStage env g sbx url with ⟨wevs, res⟩
          dsimp only
          have hbs := genWriteStage_shape env g sbx url
          rw [hW] at hbs
          have hsh := bodyShape_prepend
            ([.log "🎨 Generating component from your drawing...",
              .log "✅ Initial code generated", .codeEvt g] ++ aevs) (wevs, res)
            (by simp only [noTerminalEvents_append, noTerminalEvents_cons,
                  noTerminalEvents_nil, isTerminal_log, isTerminal_code,
                  Bool.not_false, Bool.true_and, Bool.and_true, hant])
            hbs
          simpa using hsh

theorem noTerminal_count (l : List GEvent) (h : noTerminalEvents l = true) :
    terminalCount l = 0 := by
  simp only [noTerminalEvents, List.all_eq_true] at h
  simp only [terminalCount, List.countP_eq_zero]
  intro a ha
  have := h a ha
  simpa using this

/-- Full reduction of the route trace on the path that reaches the repair
loop and finishes normally. -/
theorem generateE2B_loopShape (env : GenEnv) (text g : String) (sbx : Sbx)
    (url : String) (br : CmdResult)
    (hgen : env.genOutcome = Except.ok text)
    (hx : extractCodeFromResponse text = some g)
    (hg : ¬ g = "")
    (ha : (acquireSandbox env).2 = Except.ok (sbx, url))
    (hw1 : env.writeComponentOutcome = Except.ok ())
    (hw2 : env.writePageOutcome = Except.ok ())
    (hi : (runInstalls env (detectShadcnImports g)).2 = none)
    (hb : env.buildOutcome = Except.ok br)
    (hbf : (br.exitCode == 0) = false)
    (hle : (agentLoop env g).2 = none) :
    generateE2B env =
      [GEvent.log "🎨 Generating component from your drawing...",
       GEvent.log "✅ Initial code generated", GEvent.codeEvt g] ++
      (acquireSandbox env).1 ++
      [GEvent.log "📝 Writing component..."] ++
      (runInstalls env (detectShadcnImports g)).1 ++
      [GEvent.log "🔨 Checking build...",
       GEvent.log "⚠️ Build errors detected, starting autonomous fix agent..."] ++
      (agentLoop env g).1.events ++
      (if (agentLoop env g).1.taskComplete then []
       else [GEvent.log "⚠️ Max iterations reached"]) ++
      finishEvents (agentLoop env g).1.currentCode url sbx.sandboxId := by
  rcases hA : acquireSandbox env with ⟨aevs, ares⟩
  rw [hA] at ha
  simp only at ha
  subst ha
  rcases hI : runInstalls env (detectShadcnImports g) with ⟨ievs, ierr⟩
  rw [hI] at hi
  simp only at hi
  subst hi
  rcases hL : agentLoop env g with ⟨stF, res⟩
  rw [hL] at hle
  simp only at hle
  subst hle
  unfold generateE2B genBody
  rw [hgen]
  dsimp only
  rw [hx]
  dsimp only
  rw [if_neg hg, hA]
  dsimp only
  unfold genWriteStage
  rw [hw1]
  dsimp only
  rw [hw2]
  dsimp only
  rw [hI]
  dsimp only
  unfold genLoopStage
  rw [hb]
  dsimp only
  rw [hbf]
  simp only [Bool.false_eq_true, if_false]
  rw [hL]
  dsimp only
  simp [finishEvents, List.append_assoc]

theorem completePayloads_of_noTerminal (l : List GEvent)
    (h : noTerminalEvents l = true) : completePayloads l = [] := by
  simp only [noTerminalEvents, List.all_eq_true] at h
  simp only [completePayloads, List.filterMap_eq_nil]
  intro e he
  have := h e he
  cases e <;> simp_all [GEvent.isTerminal]

theorem codesOf_of_noCode (l : List GEvent)
    (h : (l.all fun e => !e.isCode) = true) : codesOf l = [] := by
  simp only [List.all_eq_true] at h
  simp only [codesOf, List.filterMap_eq_nil]
  intro e he
  have := h e he
  cases e <;> simp_all [GEvent.isCode]

/-- Payload-level reduction of the loop-path trace, shared by the iteration
and latest-code claims. -/
theorem generateE2B_loop_payloads (env : GenEnv) (text g : String) (sbx : Sbx)
    (url : String) (br : CmdResult)
    (hgen : env.genOutcome = Except.ok text)
    (hx : extractCodeFromResponse text = some g)
    (hg : ¬ g = "")
    (ha : (acquireSandbox env).2 = Except.ok (sbx, url))
    (hw1 : env.writeComponentOutcome = Except.ok ())
    (hw2 : env.writePageOutcome = Except.ok ())
    (hi : (runInstalls env (detectShadcnImports g)).2 = none)
    (hb : env.buildOutcome = Except.ok br)
    (hbf : (br.exitCode == 0) = false)
    (hle : (agentLoop env g).2 = none) :
    completePayloads (generateE2B env) =
      [((agentLoop env g).1.currentCode, url, sbx.sandboxId, true)] ∧
    terminalCount (generateE2B env) = 1 ∧
    codesOf (generateE2B env) =
      g :: componentWrites (agentLoop env g).1.dispatched := by
  have htr := generateE2B_loopShape env text g sbx url br hgen hx hg ha hw1 hw2
    hi hb hbf hle
  have haevs := acquireSandbox_events env
  have hievs := runInstalls_events env (detectShadcnImports g)
  have hloop := agentLoop_events_spec env g
  rw [htr]
  have hifNT : noTerminalEvents
      (if (agentLoop env g).1.taskComplete then []
       else [GEvent.log "⚠️ Max iterations reached"]) = true := by
    split <;> simp [noTerminalEvents_cons, noTerminalEvents_nil, isTerminal_log]
  have hifC : codesOf
      (if (agentLoop env g).1.taskComplete then []
       else [GEvent.log "⚠️ Max iterations reached"]) = [] := by
    split <;> simp [codesOf]
  refine ⟨?_, ?_, ?_⟩
  · simp only [completePayloads, List.filterMap_append]
    have h1 := completePayloads_of_noTerminal _ haevs.1
    have h2 := completePayloads_of_noTerminal _ hievs.1
    have h3 := completePayloads_of_noTerminal _ hloop.1
    have h4 := completePayloads_of_noTerminal _ hifNT
    simp only [completePayloads] at h1 h2 h3 h4
    rw [h1, h2, h3, h4]
    simp [finishEvents]
  · simp only [terminalCount, List.countP_append]
    have h1 := noTerminal_count _ haevs.1
    have h2 := noTerminal_count _ hievs.1
    have h3 := noTerminal_count _ hloop.1
    have h4 := noTerminal_count _ hifNT
    simp only [terminalCount] at h1 h2 h3 h4
    rw [h1, h2, h3, h4]
    simp [finishEvents, List.countP_cons, GEvent.isTerminal]
  · simp only [codesOf_append, haevs.2, hievs.2, hloop.2.1, hifC]
    simp [codesOf, finishEvents]

/-! ## Concrete environments used in witnesses and the counterexample -/

/-- A run in which generation and provisioning succeed, the build fails, and
the model answers all twenty turns with no tool calls and no text. -/
def envC1 : GenEnv :=
  { genOutcome := .ok "```\nx\n```",
    existingSandboxId := none,
    connectOutcome := .error (),
    createOutcomeFresh := .ok ⟨"sb1", "h1"⟩,
    createOutcomeFallback := .ok ⟨"sb1", "h1"⟩,
    writeComponentOutcome := .ok (),
    writePageOutcome := .ok (),
    installOutcome := fun _ => .ok ⟨0, "", ""⟩,
    buildOutcome := .ok ⟨1, "Type error: boom", ""⟩,
    turnOutcome := fun _ => .ok ⟨[], ""⟩ }

/-- Like `envC1` but the first turn writes the component twice and then calls
`task_complete`. -/
def envC2 : GenEnv :=
  { envC1 with
    turnOutcome := fun i =>
      if i = 1 then
        .ok ⟨[(.writeFile "/home/user/app/app/component.tsx" "draft one" (.ok ()), .ok ()),
              (.writeFile "/home/user/app/app/component.tsx" "final fix" (.ok ()), .ok ()),
              (.taskCompleteCall true "build passes", .ok ())], ""⟩
      else .ok ⟨[], ""⟩ }

/-- Like `envC1` but requesting reuse of a stale sandbox id. -/
def envC7 : GenEnv :=
  { envC1 with
    existingSandboxId := some "stale-id-123",
    connectOutcome := .error (),
    createOutcomeFallback := .ok ⟨"sb2", "h2"⟩ }

def envC5 : GenEnv :=
  { envC1 with genOutcome := .ok "Here is a description of the design, no code." }

/-! ## Claim theorems -/

/-- C4: for every execution path of one generation request — success,
iteration exhaustion, extraction failure, provisioning failure, or any other
throw — exactly one of the terminal events `complete`/`error` is emitted on
the stream, and it is the last event before the stream closes. -/
theorem C4_single_terminal_event (env : GenEnv) :
    terminalCount (generateE2B env) = 1 ∧
    endsWithTerminal (generateE2B env) = true := by
  have hsh := genBody_shape env
  unfold generateE2B
  rcases hB : genBody env with ⟨evs, err⟩
  rw [hB] at hsh
  cases err with
  | none =>
    obtain ⟨pre, c, u, i, s, he, hnt⟩ := hsh
    dsimp only
    subst he
    constructor
    · have h0 := noTerminal_count pre hnt
      simp only [terminalCount, List.countP_append] at h0 ⊢
      rw [h0]
      simp [List.countP_cons, GEvent.isTerminal]
    · rw [endsWithTerminal, List.getLast?_concat]
      rfl
  | some msg =>
    have hnt : noTerminalEvents evs = true := hsh
    dsimp only
    constructor
    · have h0 := noTerminal_count evs hnt
      simp only [terminalCount, List.countP_append] at h0 ⊢
      rw [h0]
      simp [List.countP_cons, GEvent.isTerminal]
    · have : evs ++ [GEvent.log ("❌ Error: " ++ msg), GEvent.errorEvt msg] =
          (evs ++ [GEvent.log ("❌ Error: " ++ msg)]) ++ [GEvent.errorEvt msg] := by
        simp
      rw [endsWithTerminal, this, List.getLast?_concat]
      rfl

/-- C5: when no fenced code block can be extracted from the generation
model's response, the stream is exactly the initial log, the error log and a
single `error` event whose message names the extraction failure; no `code`
and no `sandbox` event is emitted. -/
theorem C5_extraction_failure (env : GenEnv) (text : String)
    (hgen : env.genOutcome = Except.ok text)
    (hx : extractCodeFromResponse text = none) :
    generateE2B env =
      [GEvent.log "🎨 Generating component from your drawing...",
       GEvent.log "❌ Error: Failed to extract code from AI response",
       GEvent.errorEvt "Failed to extract code from AI response"] ∧
    ((generateE2B env).countP fun e => e.isError) = 1 ∧
    ((generateE2B env).countP fun e => e.isCode) = 0 ∧
    ((generateE2B env).countP fun e => e.isSandbox) = 0 := by
  have htr : generateE2B env =
      [GEvent.log "🎨 Generating component from your drawing...",
       GEvent.log "❌ Error: Failed to extract code from AI response",
       GEvent.errorEvt "Failed to extract code from AI response"] := by
    unfold generateE2B genBody
    rw [hgen]
    dsimp only
    rw [hx]
    rfl
  rw [htr]
  refine ⟨rfl, rfl, rfl, rfl⟩

/-- Witness for C5 at a concrete prose-only model response. -/
theorem C5_extraction_failure_witness :
    extractCodeFromResponse "Here is a description of the design, no code." = none ∧
    generateE2B envC5 =
      [GEvent.log "🎨 Generating component from your drawing...",
       GEvent.log "❌ Error: Failed to extract code from AI response",
       GEvent.errorEvt "Failed to extract code from AI response"] :=
  ⟨rfl, (C5_extraction_failure envC5 _ rfl rfl).1⟩

/-- C7: when an existing sandbox id is supplied and connecting to it fails,
the route falls back to creating a brand-new sandbox and continues with it;
the connection failure yields only log events, never an `error` event. -/
theorem C7_connect_fallback (env : GenEnv) (sbx : Sbx) (id : String)
    (hid : env.existingSandboxId = some id)
    (hconn : env.connectOutcome = Except.error ())
    (hcreate : env.createOutcomeFallback = Except.ok sbx) :
    acquireSandbox env =
      ([GEvent.log "📝 Connecting to existing sandbox...",
        GEvent.log "⚠️ Could not connect, creating new sandbox...",
        GEvent.log "🚀 Starting dev server...", GEvent.log "✅ Dev server ready"],
       Except.ok (sbx, "https://" ++ sbx.host)) ∧
    ((acquireSandbox env).1.all fun e => !e.isError) = true := by
  have htr : acquireSandbox env =
      ([GEvent.log "📝 Connecting to existing sandbox...",
        GEvent.log "⚠️ Could not connect, creating new sandbox...",
        GEvent.log "🚀 Starting dev server...", GEvent.log "✅ Dev server ready"],
       Except.ok (sbx, "https://" ++ sbx.host)) := by
    unfold acquireSandbox
    rw [hid]
    dsimp only
    rw [hconn]
    dsimp only
    rw [hcreate]
    rfl
  rw [htr]
  exact ⟨rfl, rfl⟩

/-- Witness for C7 at a concrete stale id. -/
theorem C7_connect_fallback_witness :
    envC7.existingSandboxId = some "stale-id-123" ∧
    (acquireSandbox envC7).2 = Except.ok (⟨"sb2", "h2"⟩, "https://h2") ∧
    ((acquireSandbox envC7).1.all fun e => !e.isError) = true := by
  have h := C7_connect_fallback envC7 ⟨"sb2", "h2"⟩ "stale-id-123" rfl rfl rfl
  refine ⟨rfl, ?_, h.2⟩
  rw [h.1]
  rfl

/-- C9: the `write_file` handler updates `currentCode` and emits a `code`
event for every successful write whose path merely contains the substring
`"component.tsx"` — the check is `path.includes`, not equality with the
canonical component path. -/
theorem C9_substring_path_check (st : AgentState) (p c : String)
    (hp : strIncludes p "component.tsx" = true) :
    (dispatchCall st (.writeFile p c (.ok ()))).1.currentCode = c ∧
    (dispatchCall st (.writeFile p c (.ok ()))).1.events =
      st.events ++ [GEvent.log ("📝 Writing " ++ p ++ "..."), GEvent.codeEvt c] := by
  constructor
  · simp [dispatchCall, effNewCode, hp]
  · simp [dispatchCall, effEvents, hp]

/-- Witness for C9 at a path that contains `"component.tsx"` but is not the
canonical component path. -/
theorem C9_substring_path_check_witness :
    strIncludes "/home/user/app/app/old-component.tsx.bak" "component.tsx" = true ∧
    "/home/user/app/app/old-component.tsx.bak" ≠ "/home/user/app/app/component.tsx" ∧
    (dispatchCall (initAgentState "generated")
      (.writeFile "/home/user/app/app/old-component.tsx.bak" "hijacked" (.ok ()))).1.currentCode =
      "hijacked" := by
  refine ⟨rfl, by decide, ?_⟩
  exact (C9_substring_path_check (initAgentState "generated")
    "/home/user/app/app/old-component.tsx.bak" "hijacked" rfl).1

/-- C10: `closeSandbox` kills a sandbox only when its id is registered in the
module-level `activeSandboxes` map; for an unregistered id it is a silent
no-op — no remote kill, no state change — while the kill route still responds
`success` with `killed: id`. -/
theorem C10_close_unregistered (st : PoolState) (k : Except String Unit)
    (id : String) (h : lookupSession st id = none) :
    closeSandbox st k id = (st, false) ∧
    (sandboxKillPOST st k (some id)).1 =
      { success := true, killed := some id } ∧
    (sandboxKillPOST st k (some id)).2.1 = st ∧
    (sandboxKillPOST st k (some id)).2.2 = false := by
  have hclose : closeSandbox st k id = (st, false) := by
    unfold closeSandbox
    rw [h]
  have hkill : sandboxKillPOST st k (some id) =
      ({ success := true, killed := some id }, st, false) := by
    unfold sandboxKillPOST
    dsimp only
    rw [hclose]
  refine ⟨hclose, by rw [hkill], by rw [hkill], by rw [hkill]⟩

/-- Witness for C10: a kill request for an id absent from the session map
(the situation of every sandbox created by the streaming generation route,
which never registers its sandboxes in `activeSandboxes`). -/
theorem C10_close_unregistered_witness :
    lookupSession
      ⟨[("registered-id", ⟨⟨"registered-id", "h9"⟩, "https://h9", true, true⟩)], none⟩
      "sb1" = none ∧
    closeSandbox
      ⟨[("registered-id", ⟨⟨"registered-id", "h9"⟩, "https://h9", true, true⟩)], none⟩
      (.ok ()) "sb1" =
      (⟨[("registered-id", ⟨⟨"registered-id", "h9"⟩, "https://h9", true, true⟩)], none⟩,
       false) ∧
    (sandboxKillPOST
      ⟨[("registered-id", ⟨⟨"registered-id", "h9"⟩, "https://h9", true, true⟩)], none⟩
      (.ok ()) (some "sb1")).1 = { success := true, killed := some "sb1" } := by
  have h := C10_close_unregistered
    ⟨[("registered-id", ⟨⟨"registered-id", "h9"⟩, "https://h9", true, true⟩)], none⟩
    (.ok ()) "sb1" rfl
  exact ⟨rfl, h.1, h.2.1⟩

theorem find_mapSet (m : List (String × E2BSession)) (k : String) (v : E2BSession) :
    (mapSet m k v).find? (fun p => p.1 = k) = some (k, v) := by
  unfold mapSet
  by_cases hany : (m.any fun p => p.1 = k) = true
  · rw [if_pos hany]
    induction m with
    | nil => simp at hany
    | cons hd tl ih =>
      by_cases hk : hd.1 = k
      · simp [List.find?, hk]
      · simp only [List.any_cons] at hany
        have htl : (tl.any fun p => p.1 = k) = true := by
          rcases Bool.or_eq_true_iff.mp hany with h' | h'
          · exact absurd (by simpa using h') hk
          · exact h'
        simp only [List.map_cons, if_neg hk, List.find?, decide_eq_false hk]
        exact ih htl
  · rw [if_neg hany]
    induction m with
    | nil => simp [List.find?]
    | cons hd tl ih =>
      simp only [List.any_cons, Bool.or_eq_true_iff, not_or] at hany
      have hk : ¬hd.1 = k := by simpa using hany.1
      simp only [List.cons_append, List.find?, decide_eq_false hk]
      exact ih (by simpa using hany.2)

/-- C8: calling the pre-warm endpoint twice without an intervening destroy
returns the same sandbox id both times — when a pre-warmed session exists the
second call answers from the cache (`cached: true`), provisions nothing, and
leaves the pool state unchanged. -/
theorem C8_prewarm_idempotent (env1 env2 : PrewarmEnv) (st0 : PoolState)
    (h : (sandboxInitPOST env1 st0).1.success = true) :
    (sandboxInitPOST env2 (sandboxInitPOST env1 st0).2).1.sandboxId =
      (sandboxInitPOST env1 st0).1.sandboxId ∧
    (sandboxInitPOST env2 (sandboxInitPOST env1 st0).2).1.success = true ∧
    (sandboxInitPOST env2 (sandboxInitPOST env1 st0).2).1.cached = true ∧
    (sandboxInitPOST env2 (sandboxInitPOST env1 st0).2).2 =
      (sandboxInitPOST env1 st0).2 := by
  cases hpre : getPrewarmedSandbox st0 with
  | some sess =>
    have h1 : sandboxInitPOST env1 st0 =
        ({ success := true, sandboxId := some sess.sbx.sandboxId, cached := true,
           status := 200 }, st0) := by
      unfold sandboxInitPOST
      rw [hpre]
    rw [h1]
    have h2 : sandboxInitPOST env2 st0 =
        ({ success := true, sandboxId := some sess.sbx.sandboxId, cached := true,
           status := 200 }, st0) := by
      unfold sandboxInitPOST
      rw [hpre]
    exact ⟨by rw [h2], by rw [h2], by rw [h2], by rw [h2]⟩
  | none =>
    have h1 : sandboxInitPOST env1 st0 =
        (if (prewarmSandbox env1 st0).1.success then
          ({ success := true, sandboxId := (prewarmSandbox env1 st0).1.sandboxId,
             cached := false, status := 200 }, (prewarmSandbox env1 st0).2)
         else
          ({ success := false, sandboxId := none, cached := false,
             status := 500 }, (prewarmSandbox env1 st0).2)) := by
      unfold sandboxInitPOST
      rw [hpre]
    by_cases hkey : (!env1.apiKeyPresent) = true
    · exfalso
      have : (sandboxInitPOST env1 st0).1.success = false := by
        rw [h1]
        unfold prewarmSandbox
        rw [if_pos hkey]
        simp
      rw [this] at h
      cases h
    · cases hc : env1.createOutcome with
      | error e =>
        exfalso
        have : (sandboxInitPOST env1 st0).1.success = false := by
          rw [h1]
          unfold prewarmSandbox
          rw [if_neg hkey, hc]
          simp
        rw [this] at h
        cases h
      | ok s =>
        have hP : prewarmSandbox env1 st0 =
            ({ success := true, sandboxId := some s.sandboxId,
               url := some ("https://" ++ s.host), error := none },
             { activeSandboxes :=
                 mapSet st0.activeSandboxes s.sandboxId
                   ⟨s, "https://" ++ s.host, true, true⟩,
               prewarmedSandboxId := some s.sandboxId }) := by
          unfold prewarmSandbox
          rw [if_neg hkey, hc]
        have h1' : sandboxInitPOST env1 st0 =
            ({ success := true, sandboxId := some s.sandboxId, cached := false,
               status := 200 },
             { activeSandboxes :=
                 mapSet st0.activeSandboxes s.sandboxId
                   ⟨s, "https://" ++ s.host, true, true⟩,
               prewarmedSandboxId := some s.sandboxId }) := by
          rw [h1, hP]
          rfl
        rw [h1']
        have hlook : getPrewarmedSandbox
            { activeSandboxes :=
                mapSet st0.activeSandboxes s.sandboxId
                  ⟨s, "https://" ++ s.host, true, true⟩,
              prewarmedSandboxId := some s.sandboxId } =
            some ⟨s, "https://" ++ s.host, true, true⟩ := by
          unfold getPrewarmedSandbox lookupSession
          dsimp only
          rw [find_mapSet]
          rfl
        have h2 : sandboxInitPOST env2
            { activeSandboxes :=
                mapSet st0.activeSandboxes s.sandboxId
                  ⟨s, "https://" ++ s.host, true, true⟩,
              prewarmedSandboxId := some s.sandboxId } =
            ({ success := true, sandboxId := some s.sandboxId, cached := true,
               status := 200 },
             { activeSandboxes :=
                 mapSet st0.activeSandboxes s.sandboxId
                   ⟨s, "https://" ++ s.host, true, true⟩,
               prewarmedSandboxId := some s.sandboxId }) := by
          unfold sandboxInitPOST
          rw [hlook]
        exact ⟨by rw [h2], by rw [h2], by rw [h2], by rw [h2]⟩

/-- Witness for C8: empty pool, then two init calls. -/
theorem C8_prewarm_idempotent_witness :
    (sandboxInitPOST ⟨true, .ok ⟨"sb1", "h1"⟩⟩ ⟨[], none⟩).1.success = true ∧
    (sandboxInitPOST ⟨true, .ok ⟨"sb9", "h9"⟩⟩
      (sandboxInitPOST ⟨true, .ok ⟨"sb1", "h1"⟩⟩ ⟨[], none⟩).2).1.sandboxId =
      some "sb1" ∧
    (sandboxInitPOST ⟨true, .ok ⟨"sb9", "h9"⟩⟩
      (sandboxInitPOST ⟨true, .ok ⟨"sb1", "h1"⟩⟩ ⟨[], none⟩).2).1.cached = true := by
  have h := C8_prewarm_idempotent ⟨true, .ok ⟨"sb1", "h1"⟩⟩ ⟨true, .ok ⟨"sb9", "h9"⟩⟩
    ⟨[], none⟩ rfl
  refine ⟨rfl, ?_, h.2.2.1⟩
  rw [h.1]
  rfl

/-- C3: the repair loop ends only through an explicit `task_complete` call or
the iteration ceiling: `task_complete` sets `taskComplete` whatever its
`success` argument; a `run_command` whose command contains `npm run build`
and exits 0 only adds a success log, leaving `taskComplete` unchanged; a run
that ends without `taskComplete` ran all `MAX_ITERATIONS` turns; and a run
that ends with `taskComplete` dispatched a `task_complete` call. -/
theorem C3_termination_conditions (env : GenEnv) (g : String) (st : AgentState)
    (succ : Bool) (msg cmd : String) (cwd : Option String) (r : CmdResult)
    (hcmd : strIncludes cmd "npm run build" = true)
    (hexit : r.exitCode = 0)
    (hdone : (agentLoop env g).2 = none) :
    (dispatchCall st (.taskCompleteCall succ msg)).1.taskComplete = true ∧
    (dispatchCall st (.runCommand cmd cwd (.ok r))).1.taskComplete =
      st.taskComplete ∧
    (dispatchCall st (.runCommand cmd cwd (.ok r))).1.events =
      st.events ++ [GEvent.log ("⚡ Running: " ++ cmd),
                    GEvent.log "✅ Build successful!"] ∧
    ((agentLoop env g).1.taskComplete = true →
      hasTC (agentLoop env g).1.dispatched = true) ∧
    ((agentLoop env g).1.taskComplete = false →
      (agentLoop env g).1.iteration = MAX_ITERATIONS) := by
  refine ⟨?_, ?_, ?_, ?_, ?_⟩
  · simp [dispatchCall, effIsTC]
  · simp [dispatchCall, effIsTC]
  · simp [dispatchCall, effEvents, hcmd, hexit]
  · intro h
    have horig := agentLoopGo_tcOrigin env MAX_ITERATIONS (initAgentState g)
    simp only [agentLoop] at h ⊢
    rcases horig h with h' | h'
    · simp [initAgentState] at h'
    · exact h'
  · intro h
    have hexit2 := agentLoopGo_exit env MAX_ITERATIONS (initAgentState g)
      (by simp [initAgentState]) (by simpa [agentLoop] using hdone)
    have hub := (agentLoop_events_spec env g).2.2.2
    simp only [agentLoop] at h hub ⊢
    rcases hexit2 with h' | h'
    · rw [h] at h'
      cases h'
    · omega

/-- Witness for C3: a build command that exits 0 inside a run whose model
never calls `task_complete`. -/
theorem C3_termination_conditions_witness :
    strIncludes "npm run build" "npm run build" = true ∧
    (agentLoop envC1 "x").2 = none ∧
    ((dispatchCall (initAgentState "x")
        (.runCommand "npm run build" none (.ok ⟨0, "ok", ""⟩))).1.taskComplete =
      (initAgentState "x").taskComplete ∧
     ((agentLoop envC1 "x").1.taskComplete = false →
       (agentLoop envC1 "x").1.iteration = MAX_ITERATIONS)) := by
  have h := C3_termination_conditions envC1 "x" (initAgentState "x") true "done"
    "npm run build" none ⟨0, "ok", ""⟩ rfl rfl rfl
  exact ⟨rfl, rfl, h.2.1, h.2.2.2.2⟩

theorem getLast?_cons_ne (a : String) (l : List String) (h : l ≠ []) :
    (a :: l).getLast? = l.getLast? := by
  rcases l.eq_nil_or_concat with rfl | ⟨ys, b, rfl⟩
  · exact absurd rfl h
  · rw [show a :: (ys.concat b) = (a :: ys) ++ [b] by simp]
    rw [List.getLast?_concat]
    rw [show ys.concat b = ys ++ [b] by simp, List.getLast?_concat]

/-- C1 (amended): if the model never calls `task_complete` (and no remote
call throws), the repair loop performs exactly `MAX_ITERATIONS` model turns
and the route then emits exactly one terminal event, a `complete` carrying
the latest best-effort code — but with `success: true` (the route hard-codes
`success: true`), not `success: false` as the claim states. -/
theorem C1_iteration_ceiling (env : GenEnv) (text g : String) (sbx : Sbx)
    (url : String) (br : CmdResult)
    (hgen : env.genOutcome = Except.ok text)
    (hx : extractCodeFromResponse text = some g)
    (hg : ¬ g = "")
    (ha : (acquireSandbox env).2 = Except.ok (sbx, url))
    (hw1 : env.writeComponentOutcome = Except.ok ())
    (hw2 : env.writePageOutcome = Except.ok ())
    (hi : (runInstalls env (detectShadcnImports g)).2 = none)
    (hb : env.buildOutcome = Except.ok br)
    (hbf : (br.exitCode == 0) = false)
    (hturns : ∀ i, 1 ≤ i → i ≤ MAX_ITERATIONS →
      ∃ t, env.turnOutcome i = Except.ok t ∧
        hasTC (callsEffects t.calls).1 = false ∧
        (callsEffects t.calls).2 = none) :
    (agentLoop env g).1.iteration = MAX_ITERATIONS ∧
    terminalCount (generateE2B env) = 1 ∧
    completePayloads (generateE2B env) =
      [((agentLoop env g).1.currentCode, url, sbx.sandboxId, true)] := by
  have hno := agentLoopGo_noTC env MAX_ITERATIONS (initAgentState g)
    (by simp [initAgentState])
    (fun i h1 h2 => hturns i (by simpa [initAgentState] using h1)
      (by simp [initAgentState] at h2; omega))
  have hle : (agentLoop env g).2 = none := by
    simpa [agentLoop] using hno.1
  have htcF : (agentLoop env g).1.taskComplete = false := by
    simpa [agentLoop] using hno.2
  have hpay := generateE2B_loop_payloads env text g sbx url br hgen hx hg ha
    hw1 hw2 hi hb hbf hle
  refine ⟨?_, hpay.2.1, hpay.1⟩
  have hexit2 := agentLoopGo_exit env MAX_ITERATIONS (initAgentState g)
    (by simp [initAgentState]) (by simpa [agentLoop] using hle)
  have hub := (agentLoop_events_spec env g).2.2.2
  simp only [agentLoop] at htcF hub ⊢
  rcases hexit2 with h' | h'
  · rw [htcF] at h'
    cases h'
  · omega

/-- Counterexample to C1 as stated: in `envC1` the model never calls
`task_complete` in any of the `MAX_ITERATIONS` turns, exactly one terminal
event is emitted, and its unique `complete` payload carries
`success = true`, not the `success:false` the claim requires. -/
theorem C1_iteration_ceiling_counterexample :
    ((List.range MAX_ITERATIONS).all fun i =>
      match envC1.turnOutcome (i + 1) with
      | .ok t => !hasTC (callsEffects t.calls).1
      | .error _ => false) = true ∧
    terminalCount (generateE2B envC1) = 1 ∧
    completePayloads (generateE2B envC1) = [("x", "https://h1", "sb1", true)] :=
  ⟨rfl, rfl, rfl⟩

/-- Witness for the amended C1 at `envC1`. -/
theorem C1_iteration_ceiling_witness :
    (agentLoop envC1 "x").1.iteration = MAX_ITERATIONS ∧
    completePayloads (generateE2B envC1) =
      [((agentLoop envC1 "x").1.currentCode, "https://h1", "sb1", true)] := by
  have h := C1_iteration_ceiling envC1 "```\nx\n```" "x" ⟨"sb1", "h1"⟩
    "https://h1" ⟨1, "Type error: boom", ""⟩ rfl rfl (by decide) rfl rfl rfl rfl
    rfl rfl (fun i _ _ => ⟨⟨[], ""⟩, rfl, rfl, rfl⟩)
  exact ⟨h.1, h.2.2⟩

/-- The session had no failed `write_file` call targeting the component
path, so the write calls targeting that path coincide with the successful
ones recorded by `componentWrites`. -/
def componentWriteCallsOk (l : List ToolEffect) : Bool :=
  l.all fun e =>
    match e with
    | .writeFile p _ (.error _) => !(strIncludes p "component.tsx")
    | _ => true

/-- C2: throughout a repair session in which every `write_file` call
targeting the component path succeeds, the most recently emitted `code`
event equals the content of the most recent such write — never an earlier
one — and the terminal `complete` event carries that same latest content. -/
theorem C2_latest_code (env : GenEnv) (text g : String) (sbx : Sbx)
    (url : String) (br : CmdResult)
    (hgen : env.genOutcome = Except.ok text)
    (hx : extractCodeFromResponse text = some g)
    (hg : ¬ g = "")
    (ha : (acquireSandbox env).2 = Except.ok (sbx, url))
    (hw1 : env.writeComponentOutcome = Except.ok ())
    (hw2 : env.writePageOutcome = Except.ok ())
    (hi : (runInstalls env (detectShadcnImports g)).2 = none)
    (hb : env.buildOutcome = Except.ok br)
    (hbf : (br.exitCode == 0) = false)
    (hle : (agentLoop env g).2 = none)
    (hwok : componentWriteCallsOk (agentLoop env g).1.dispatched = true)
    (hne : componentWrites (agentLoop env g).1.dispatched ≠ []) :
    lastCodePayload (generateE2B env) =
      (componentWrites (agentLoop env g).1.dispatched).getLast? ∧
    completePayloads (generateE2B env) =
      [((agentLoop env g).1.currentCode, url, sbx.sandboxId, true)] ∧
    some (agentLoop env g).1.currentCode =
      (componentWrites (agentLoop env g).1.dispatched).getLast? := by
  have hpay := generateE2B_loop_payloads env text g sbx url br hgen hx hg ha
    hw1 hw2 hi hb hbf hle
  refine ⟨?_, hpay.1, ?_⟩
  · rw [lastCodePayload, hpay.2.2, getLast?_cons_ne _ _ hne]
  · have hcur := (agentLoop_events_spec env g).2.2.1
    rcases (componentWrites (agentLoop env g).1.dispatched).eq_nil_or_concat with
      hnil | ⟨ys, b, hconcat⟩
    · exact absurd hnil hne
    · rw [hconcat] at hcur ⊢
      rw [show ys.concat b = ys ++ [b] by simp] at hcur ⊢
      rw [List.getLast?_concat] at hcur ⊢
      simp [hcur]

/-- Witness for C2: the model writes the component twice in one turn; the
last `code` event and the `complete` payload both carry the second write. -/
theorem C2_latest_code_witness :
    componentWrites (agentLoop envC2 "x").1.dispatched =
      ["draft one", "final fix"] ∧
    lastCodePayload (generateE2B envC2) = some "final fix" ∧
    completePayloads (generateE2B envC2) =
      [("final fix", "https://h1", "sb1", true)] := by
  have h := C2_latest_code envC2 "```\nx\n```" "x" ⟨"sb1", "h1"⟩ "https://h1"
    ⟨1, "Type error: boom", ""⟩ rfl rfl (by decide) rfl rfl rfl rfl rfl rfl rfl
    rfl (by decide)
  refine ⟨rfl, ?_, ?_⟩
  · rw [h.1]
    rfl
  · rw [h.2.1]
    rfl

/-! ## C6: comment stripping on structured sources

A generated source "containing `// foo` line comments and `/* bar */` block
comments interleaved with code" is modelled as a list of lines: code lines,
`//` comment lines, single-line `/* ... */` comment lines (each with
indentation), and blank lines, rendered with `\n` separators. -/

inductive SrcLine where
  | codeLine (s : List Char)
  | lineComment (ws s : List Char)
  | blockComment (ws s : List Char)
  | blankLine (ws : List Char)

def renderL : SrcLine → List Char
  | .codeLine s => s
  | .lineComment ws s => ws ++ '/' :: '/' :: s
  | .blockComment ws s => ws ++ '/' :: '*' :: (s ++ ['*', '/'])
  | .blankLine ws => ws

def renderChars : List SrcLine → List Char
  | [] => []
  | [l] => renderL l
  | l :: l2 :: rest => renderL l ++ '\n' :: renderChars (l2 :: rest)

/-- Well-formedness: code lines are single-line, non-blank, and contain no
comment opener; comment payloads are single-line, contain no token that would
open or close a comment early. -/
def wfLine : SrcLine → Bool
  | .codeLine s =>
    noNl s && !listContains ['/', '/'] s && !listContains ['/', '*'] s &&
      !(s.all jsWs)
  | .lineComment ws s =>
    wsOnly ws && noNl s && !listContains ['/', '*'] s &&
      (match s with
       | '*' :: _ => false
       | _ => true)
  | .blockComment ws s => wsOnly ws && noNl s && !listContains ['*', '/'] s
  | .blankLine ws => wsOnly ws

def wfSrc (L : List SrcLine) : Bool :=
  L.all wfLine

def lastIsCode (L : List SrcLine) : Bool :=
  match L.getLast? with
  | some (.codeLine _) => true
  | _ => false

def blockStripLine : SrcLine → SrcLine
  | .blockComment ws _ => .blankLine ws
  | l => l

def lineStripLine : SrcLine → SrcLine
  | .lineComment ws _ => .blankLine ws
  | l => l

def codeContents : List SrcLine → List (List Char) :=
  List.filterMap fun l =>
    match l with
    | .codeLine s => some s
    | _ => none

def noBlockLine : SrcLine → Bool
  | .blockComment _ _ => false
  | _ => true

def onlyCodeOrBlank : SrcLine → Bool
  | .codeLine _ => true
  | .blankLine _ => true
  | _ => false

/-- Newline-joined code lines: the expected output of the pipeline. -/
def joinLines : List (List Char) → List Char
  | [] => []
  | [p] => p
  | p :: q :: rest => p ++ '\n' :: joinLines (q :: rest)

def headIs (c : Char) : List Char → Bool
  | d :: _ => c == d
  | [] => false

def lastIs (c : Char) (l : List Char) : Bool :=
  match l.getLast? with
  | some d => c == d
  | none => false

/-- Lines of a string, splitting at `\n` (the shape of the final
no-blank-line check). -/
def charLines (l : List Char) : List (List Char) :=
  match l with
  | [] => [[]]
  | c :: rest =>
    if c = '\n' then [] :: charLines rest
    else
      match charLines rest with
      | ln :: lns => (c :: ln) :: lns
      | [] => [[c]]

/-! ### Substring algebra for two-character patterns -/

theorem lastIs_cons (c a : Char) (x : List Char) (hx : x ≠ []) :
    lastIs c (a :: x) = lastIs c x := by
  rcases x.eq_nil_or_concat with rfl | ⟨ys, b, rfl⟩
  · exact absurd rfl hx
  · simp only [lastIs, List.concat_eq_append]
    rw [show a :: (ys ++ [b]) = (a :: ys) ++ [b] by simp]
    rw [List.getLast?_concat, List.getLast?_concat]

theorem listContains_pair_append (a b : Char) (y : List Char) :
    ∀ x, listContains [a, b] (x ++ y) =
      (listContains [a, b] x || (lastIs a x && headIs b y) ||
        listContains [a, b] y) := by
  intro x
  induction x with
  | nil => simp [listContains, lastIs]
  | cons c x ih =>
    cases x with
    | nil =>
      simp only [List.cons_append, List.nil_append, listContains,
        List.isPrefixOf, lastIs, List.getLast?]
      cases y with
      | nil => simp [listContains, headIs, List.isPrefixOf]
      | cons d y' =>
        simp [listContains, headIs, List.isPrefixOf, Bool.or_assoc]
    | cons c' x' =>
      have hne : c' :: x' ≠ ([] : List Char) := by simp
      rw [show ((c :: c' :: x') ++ y) = c :: ((c' :: x') ++ y) by simp]
      rw [listContains, ih]
      have hpre : [a, b].isPrefixOf (c :: ((c' :: x') ++ y)) = (a == c && b == c') := by
        simp [List.isPrefixOf]
      rw [hpre]
      rw [show listContains [a, b] (c :: c' :: x') =
          ((a == c && b == c') || listContains [a, b] (c' :: x')) from by
        simp [listContains, List.isPrefixOf]]
      rw [lastIs_cons a c (c' :: x') hne]
      simp [Bool.or_assoc]

theorem wsOnly_contains_pair (a b : Char) (ha : a ≠ ' ' ∧ a ≠ '\t') :
    ∀ ws, wsOnly ws = true → listContains [a, b] ws = false := by
  intro ws
  induction ws with
  | nil => intro _; simp [listContains]
  | cons c rest ih =>
    intro hws
    simp only [wsOnly, List.all_cons, Bool.and_eq_true] at hws
    have hc : wsOnlyChar c = true := hws.1
    simp only [wsOnlyChar, Bool.or_eq_true, decide_eq_true_eq] at hc
    have hac : (a == c) = false := by
      rcases hc with rfl | rfl
      · simpa using ha.1
      · simpa using ha.2
    simp only [listContains, List.isPrefixOf, hac, Bool.false_and, Bool.false_or]
    exact ih (by simpa [wsOnly] using hws.2)

theorem wsOnly_lastIs (a : Char) (ha : a ≠ ' ' ∧ a ≠ '\t') :
    ∀ ws, wsOnly ws = true → lastIs a ws = false := by
  intro ws
  induction ws with
  | nil => intro _; simp [lastIs]
  | cons c rest ih =>
    intro hws
    simp only [wsOnly, List.all_cons, Bool.and_eq_true] at hws
    cases hr : rest with
    | nil =>
      have hc : wsOnlyChar c = true := hws.1
      simp only [wsOnlyChar, Bool.or_eq_true, decide_eq_true_eq] at hc
      simp only [lastIs, List.getLast?]
      rcases hc with rfl | rfl
      · simpa using ha.1
      · simpa using ha.2
    | cons d rest' =>
      rw [← hr, lastIs_cons a c rest (by rw [hr]; simp)]
      exact ih (by simpa [wsOnly] using hws.2)

theorem wsOnly_noNl (ws : List Char) (h : wsOnly ws = true) : noNl ws = true := by
  simp only [wsOnly, List.all_eq_true] at h
  simp only [noNl, List.all_eq_true]
  intro c hc
  have := h c hc
  simp only [wsOnlyChar, Bool.or_eq_true, decide_eq_true_eq] at this
  rcases this with rfl | rfl <;> simp [isNlChar]

theorem wsOnly_jsWs (ws : List Char) (h : wsOnly ws = true) :
    ∀ c ∈ ws, jsWs c = true := by
  simp only [wsOnly, List.all_eq_true] at h
  intro c hc
  have := h c hc
  simp only [wsOnlyChar, Bool.or_eq_true, decide_eq_true_eq] at this
  rcases this with rfl | rfl <;> simp [jsWs]

/-- Characters before any `/*` pass the block-comment scan untouched. -/
theorem stripBlock_passthrough (y : List Char) :
    ∀ x, listContains ['/', '*'] x = false →
      (lastIs '/' x && headIs '*' y) = false →
      stripBlockComments (x ++ y) = x ++ stripBlockComments y := by
  intro x
  induction x with
  | nil => intro _ _; simp
  | cons c x ih =>
    intro hcont hbound
    cases x with
    | nil =>
      cases y with
      | nil => simp [stripBlockComments]
      | cons d y' =>
        have hb : ¬(c = '/' ∧ d = '*') := by
          rintro ⟨rfl, rfl⟩
          simp [lastIs, headIs, List.getLast?] at hbound
        simp only [List.cons_append, List.nil_append]
        rw [stripBlockComments]
        rw [if_neg (by
          simp only [Bool.and_eq_true, decide_eq_true_eq]
          exact hb)]
    | cons c' x' =>
      have hcc : (c = '/' ∧ c' = '*') → False := by
        rintro ⟨rfl, rfl⟩
        simp [listContains, List.isPrefixOf] at hcont
      simp only [List.cons_append]
      rw [stripBlockComments]
      rw [if_neg (by
        simp only [Bool.and_eq_true, decide_eq_true_eq]
        exact hcc)]
      have hcont' : listContains ['/', '*'] (c' :: x') = false := by
        rw [listContains] at hcont
        exact (Bool.or_eq_false_iff.mp hcont).2
      have hbound' : (lastIs '/' (c' :: x') && headIs '*' y) = false := by
        rw [← lastIs_cons '/' c (c' :: x') (by simp)]
        exact hbound
      have := ih hcont' hbound'
      simp only [List.cons_append] at this
      rw [this]

/-- The first `*/` after a well-formed block-comment body is its closer. -/
theorem findStarSlash_append (r : List Char) :
    ∀ s, listContains ['*', '/'] s = false →
      findStarSlash (s ++ '*' :: '/' :: r) = some r := by
  intro s
  induction s with
  | nil => intro _; rw [List.nil_append, findStarSlash]; simp
  | cons c s' ih =>
    intro hcont
    cases s' with
    | nil =>
      simp only [List.cons_append, List.nil_append]
      rw [findStarSlash]
      rw [if_neg (by simp)]
      rw [findStarSlash]
      simp
    | cons c' s'' =>
      have hcc : (c = '*' ∧ c' = '/') → False := by
        rintro ⟨rfl, rfl⟩
        simp [listContains, List.isPrefixOf] at hcont
      simp only [List.cons_append]
      rw [findStarSlash]
      rw [if_neg (by
        simp only [Bool.and_eq_true, decide_eq_true_eq]
        exact hcc)]
      have hcont' : listContains ['*', '/'] (c' :: s'') = false := by
        rw [listContains] at hcont
        exact (Bool.or_eq_false_iff.mp hcont).2
      have := ih hcont'
      simpa using this

theorem renderL_no_openB (l : SrcLine) (hwf : wfLine l = true)
    (hnb : noBlockLine l = true) :
    listContains ['/', '*'] (renderL l) = false := by
  cases l with
  | codeLine s =>
    simp only [wfLine, Bool.and_eq_true, Bool.not_eq_eq_eq_not, Bool.not_true] at hwf
    simpa [renderL] using hwf.1.2
  | lineComment ws s =>
    simp only [wfLine, Bool.and_eq_true, Bool.not_eq_eq_eq_not, Bool.not_true] at hwf
    obtain ⟨⟨⟨hws, _⟩, hcont⟩, hhead⟩ := hwf
    simp only [renderL]
    rw [listContains_pair_append]
    rw [wsOnly_contains_pair '/' '*' (by decide) ws hws]
    rw [wsOnly_lastIs '/' (by decide) ws hws]
    simp only [Bool.false_and, Bool.false_or, Bool.or_false]
    rw [listContains]
    rw [listContains]
    have hpre1 : ['/', '*'].isPrefixOf ('/' :: '/' :: s) = false := by
      simp [List.isPrefixOf]
    have hpre2 : ['/', '*'].isPrefixOf ('/' :: s) = false := by
      cases s with
      | nil => simp [List.isPrefixOf]
      | cons c s' =>
        have hc : ¬c = '*' := by
          intro h
          rw [h] at hhead
          simp at hhead
        simp [List.isPrefixOf, hc]
        intro h
        exact absurd h.symm hc
    rw [hpre1, hpre2, hcont]
    rfl
  | blockComment ws s => simp [noBlockLine] at hnb
  | blankLine ws =>
    simp only [wfLine] at hwf
    simpa [renderL] using wsOnly_contains_pair '/' '*' (by decide) ws hwf

theorem stripBlock_line (l : SrcLine) (r : List Char) (hwf : wfLine l = true)
    (hr : headIs '*' r = false) :
    stripBlockComments (renderL l ++ r) =
      renderL (blockStripLine l) ++ stripBlockComments r := by
  cases l with
  | blockComment ws s =>
    simp only [wfLine, Bool.and_eq_true, Bool.not_eq_eq_eq_not, Bool.not_true] at hwf
    obtain ⟨⟨hws, _⟩, hcont⟩ := hwf
    simp only [renderL, blockStripLine]
    rw [List.append_assoc]
    rw [stripBlock_passthrough _ ws (wsOnly_contains_pair '/' '*' (by decide) ws hws)
      (by rw [wsOnly_lastIs '/' (by decide) ws hws]; rfl)]
    congr 1
    rw [show ('/' :: '*' :: (s ++ ['*', '/'])) ++ r =
        '/' :: '*' :: (s ++ '*' :: '/' :: r) by simp]
    rw [stripBlockComments]
    rw [if_pos (by simp)]
    rw [findStarSlash_append r s hcont]
  | codeLine s =>
    have hnc := renderL_no_openB (.codeLine s) hwf (by simp [noBlockLine])
    simp only [blockStripLine]
    exact stripBlock_passthrough r _ hnc (by rw [hr]; simp)
  | lineComment ws s =>
    have hnc := renderL_no_openB (.lineComment ws s) hwf (by simp [noBlockLine])
    simp only [blockStripLine]
    exact stripBlock_passthrough r _ hnc (by rw [hr]; simp)
  | blankLine ws =>
    have hnc := renderL_no_openB (.blankLine ws) hwf (by simp [noBlockLine])
    simp only [blockStripLine]
    exact stripBlock_passthrough r _ hnc (by rw [hr]; simp)

theorem stripBlock_render : ∀ L, wfSrc L = true →
    stripBlockComments (renderChars L) = renderChars (L.map blockStripLine) := by
  intro L
  induction L with
  | nil => intro _; simp [renderChars, stripBlockComments]
  | cons l rest ih =>
    intro hwf
    simp only [wfSrc, List.all_cons, Bool.and_eq_true] at hwf
    cases rest with
    | nil =>
      simp only [renderChars, List.map_cons, List.map_nil]
      rw [show renderL l = renderL l ++ [] by simp]
      rw [stripBlock_line l [] hwf.1 (by rfl)]
      simp [stripBlockComments]
    | cons l2 rest' =>
      simp only [renderChars, List.map_cons]
      rw [stripBlock_line l _ hwf.1 (by rfl)]
      congr 1
      rw [show ('\n' :: renderChars (l2 :: rest')) =
          ['\n'] ++ renderChars (l2 :: rest') by simp]
      rw [stripBlock_passthrough _ ['\n'] (by rfl) (by simp [lastIs, List.getLast?])]
      rw [ih (by simpa [wfSrc] using hwf.2)]
      simp [List.map_cons, renderChars]

theorem stripLine_passthrough (y : List Char) :
    ∀ x, listContains ['/', '/'] x = false →
      (lastIs '/' x && headIs '/' y) = false →
      stripLineComments (x ++ y) = x ++ stripLineComments y := by
  intro x
  induction x with
  | nil => intro _ _; simp
  | cons c x ih =>
    intro hcont hbound
    cases x with
    | nil =>
      cases y with
      | nil => simp [stripLineComments]
      | cons d y' =>
        have hb : ¬(c = '/' ∧ d = '/') := by
          rintro ⟨rfl, rfl⟩
          simp [lastIs, headIs, List.getLast?] at hbound
        simp only [List.cons_append, List.nil_append]
        rw [stripLineComments]
        rw [if_neg (by
          simp only [Bool.and_eq_true, decide_eq_true_eq]
          exact hb)]
    | cons c' x' =>
      have hcc : (c = '/' ∧ c' = '/') → False := by
        rintro ⟨rfl, rfl⟩
        simp [listContains, List.isPrefixOf] at hcont
      simp only [List.cons_append]
      rw [stripLineComments]
      rw [if_neg (by
        simp only [Bool.and_eq_true, decide_eq_true_eq]
        exact hcc)]
      have hcont' : listContains ['/', '/'] (c' :: x') = false := by
        rw [listContains] at hcont
        exact (Bool.or_eq_false_iff.mp hcont).2
      have hbound' : (lastIs '/' (c' :: x') && headIs '/' y) = false := by
        rw [← lastIs_cons '/' c (c' :: x') (by simp)]
        exact hbound
      have := ih hcont' hbound'
      simp only [List.cons_append] at this
      rw [this]

theorem dropLineRest_append (r : List Char) :
    ∀ s, noNl s = true → dropLineRest (s ++ r) = dropLineRest r := by
  intro s
  induction s with
  | nil => intro _; simp
  | cons c s' ih =>
    intro hs
    simp only [noNl, List.all_cons, Bool.and_eq_true] at hs
    simp only [List.cons_append]
    rw [dropLineRest]
    rw [if_neg (by simpa using hs.1)]
    exact ih (by simpa [noNl] using hs.2)

theorem renderL_no_lineC (l : SrcLine) (hwf : wfLine l = true)
    (hcb : onlyCodeOrBlank l = true) :
    listContains ['/', '/'] (renderL l) = false := by
  cases l with
  | codeLine s =>
    simp only [wfLine, Bool.and_eq_true, Bool.not_eq_eq_eq_not, Bool.not_true] at hwf
    simpa [renderL] using hwf.1.1.2
  | lineComment ws s => simp [onlyCodeOrBlank] at hcb
  | blockComment ws s => simp [onlyCodeOrBlank] at hcb
  | blankLine ws =>
    simp only [wfLine] at hwf
    simpa [renderL] using wsOnly_contains_pair '/' '/' (by decide) ws hwf

theorem stripLine_line (l : SrcLine) (r : List Char) (hwf : wfLine l = true)
    (hnb : noBlockLine l = true)
    (hr : r = [] ∨ headIs '\n' r = true) :
    stripLineComments (renderL l ++ r) =
      renderL (lineStripLine l) ++ stripLineComments r := by
  have hrS : headIs '/' r = false := by
    rcases hr with rfl | hh
    · rfl
    · cases r with
      | nil => rfl
      | cons d r' =>
        have hd : '\n' = d := by simpa [headIs] using hh
        subst hd
        simp [headIs]
  cases l with
  | lineComment ws s =>
    simp only [wfLine, Bool.and_eq_true, Bool.not_eq_eq_eq_not, Bool.not_true] at hwf
    obtain ⟨⟨⟨hws, hnl⟩, _⟩, _⟩ := hwf
    simp only [renderL, lineStripLine]
    rw [List.append_assoc]
    rw [stripLine_passthrough _ ws (wsOnly_contains_pair '/' '/' (by decide) ws hws)
      (by rw [wsOnly_lastIs '/' (by decide) ws hws]; rfl)]
    congr 1
    rw [show ('/' :: '/' :: s) ++ r = '/' :: '/' :: (s ++ r) by simp]
    rw [stripLineComments]
    rw [if_pos (by simp)]
    rw [dropLineRest_append r s hnl]
    rcases hr with rfl | hh
    · simp [dropLineRest, stripLineComments]
    · cases r with
      | nil => simp [dropLineRest, stripLineComments]
      | cons d r' =>
        have hd : '\n' = d := by simpa [headIs] using hh
        subst hd
        rw [dropLineRest]
        rw [if_pos (by simp [isNlChar])]
  | blockComment ws s => simp [noBlockLine] at hnb
  | codeLine s =>
    have hnc := renderL_no_lineC (.codeLine s) hwf (by simp [onlyCodeOrBlank])
    simp only [lineStripLine]
    exact stripLine_passthrough r _ hnc (by rw [hrS]; simp)
  | blankLine ws =>
    have hnc := renderL_no_lineC (.blankLine ws) hwf (by simp [onlyCodeOrBlank])
    simp only [lineStripLine]
    exact stripLine_passthrough r _ hnc (by rw [hrS]; simp)

theorem stripLine_render : ∀ L, wfSrc L = true → L.all noBlockLine = true →
    stripLineComments (renderChars L) = renderChars (L.map lineStripLine) := by
  intro L
  induction L with
  | nil => intro _ _; simp [renderChars, stripLineComments]
  | cons l rest ih =>
    intro hwf hnb
    simp only [wfSrc, List.all_cons, Bool.and_eq_true] at hwf hnb
    cases rest with
    | nil =>
      simp only [renderChars, List.map_cons, List.map_nil]
      rw [show renderL l = renderL l ++ [] by simp]
      rw [stripLine_line l [] hwf.1 hnb.1 (Or.inl rfl)]
      simp [stripLineComments]
    | cons l2 rest' =>
      simp only [renderChars, List.map_cons]
      rw [stripLine_line l _ hwf.1 hnb.1 (Or.inr (by simp [headIs]))]
      congr 1
      rw [show ('\n' :: renderChars (l2 :: rest')) =
          ['\n'] ++ renderChars (l2 :: rest') by simp]
      rw [stripLine_passthrough _ ['\n'] (by rfl) (by simp [lastIs, List.getLast?])]
      rw [ih (by simpa [wfSrc] using hwf.2) (by simpa using hnb.2)]
      simp [List.map_cons, renderChars]

/-! ### Stage C: blank-line removal -/

theorem takeWhile_append_all (p : Char → Bool) (y : List Char) :
    ∀ x, (∀ c ∈ x, p c = true) →
      List.takeWhile p (x ++ y) = x ++ List.takeWhile p y := by
  intro x
  induction x with
  | nil => intro _; simp
  | cons c x' ih =>
    intro h
    simp only [List.cons_append, List.takeWhile_cons]
    rw [h c (by simp)]
    simp only [if_true]
    rw [ih (fun d hd => h d (by simp [hd]))]

theorem takeWhile_stop (p : Char → Bool) (y : List Char) :
    ∀ x, (x.all p) = false →
      List.takeWhile p (x ++ y) = List.takeWhile p x := by
  intro x
  induction x with
  | nil => intro h; simp at h
  | cons c x' ih =>
    intro h
    simp only [List.all_cons] at h
    simp only [List.cons_append, List.takeWhile_cons]
    cases hc : p c with
    | false => simp
    | true =>
      rw [hc] at h
      simp only [Bool.true_and] at h
      simp only [if_true]
      rw [ih h]

theorem noNl_lastNlIdx : ∀ l, noNl l = true → lastNlIdx l = none := by
  intro l
  induction l with
  | nil => intro _; rfl
  | cons c rest ih =>
    intro h
    simp only [noNl, List.all_cons, Bool.and_eq_true] at h
    rw [lastNlIdx, ih (by simpa [noNl] using h.2)]
    simp only
    rw [if_neg (by simpa using h.1)]

theorem noNl_takeWhile (p : Char → Bool) :
    ∀ l, noNl l = true → noNl (l.takeWhile p) = true := by
  intro l
  induction l with
  | nil => intro _; rfl
  | cons c rest ih =>
    intro h
    simp only [noNl, List.all_cons, Bool.and_eq_true] at h
    rw [List.takeWhile_cons]
    cases hp : p c
    · rfl
    · simp only [if_true, noNl, List.all_cons, Bool.and_eq_true]
      exact ⟨h.1, by simpa [noNl] using ih (by simpa [noNl] using h.2)⟩

theorem blankMatchLen_eq_zero (l : List Char)
    (h : noNl (l.takeWhile jsWs) = true) : blankMatchLen l = 0 := by
  rw [blankMatchLen, noNl_lastNlIdx _ h]

theorem lastNlIdx_append (R : List Char) :
    ∀ w, noNl w = true →
      lastNlIdx (w ++ '\n' :: R) =
        some (w.length +
          (match lastNlIdx R with
           | some i => i + 1
           | none => 0)) := by
  intro w
  induction w with
  | nil =>
    intro _
    simp only [List.nil_append, List.length_nil, Nat.zero_add]
    rw [lastNlIdx]
    cases hR : lastNlIdx R
    · simp [isNlChar]
    · simp
  | cons c w' ih =>
    intro h
    simp only [noNl, List.all_cons, Bool.and_eq_true] at h
    simp only [List.cons_append]
    rw [lastNlIdx, ih (by simpa [noNl] using h.2)]
    simp only [List.length_cons]
    congr 1
    omega

theorem blankMatchLen_blank (z : List Char) (ws : List Char)
    (hws : wsOnly ws = true) :
    blankMatchLen (ws ++ '\n' :: z) = ws.length + 1 + blankMatchLen z := by
  have htw : List.takeWhile jsWs (ws ++ '\n' :: z) =
      ws ++ '\n' :: List.takeWhile jsWs z := by
    rw [show ws ++ '\n' :: z = (ws ++ ['\n']) ++ z by simp]
    rw [takeWhile_append_all jsWs z (ws ++ ['\n'])
      (by
        intro c hc
        rcases List.mem_append.mp hc with hc | hc
        · exact wsOnly_jsWs ws hws c hc
        · simp only [List.mem_singleton] at hc
          subst hc
          simp [jsWs])]
    simp
  rw [blankMatchLen, htw, lastNlIdx_append _ ws (wsOnly_noNl ws hws)]
  rw [blankMatchLen]
  cases hz : lastNlIdx (List.takeWhile jsWs z) <;> dsimp only <;> ring

theorem go_pass_false_end : ∀ s, noNl s = true →
    stripBlankLinesGo s false = s := by
  intro s
  induction s with
  | nil => intro _; rw [stripBlankLinesGo]
  | cons c rest ih =>
    intro h
    simp only [noNl, List.all_cons, Bool.and_eq_true] at h
    rw [stripBlankLinesGo]
    simp only [Bool.false_eq_true, if_false]
    have hc : isNlChar c = false := by simpa using h.1
    rw [hc, ih (by simpa [noNl] using h.2)]

theorem go_pass_false_mid (z : List Char) : ∀ s, noNl s = true →
    stripBlankLinesGo (s ++ '\n' :: z) false =
      s ++ '\n' :: stripBlankLinesGo z true := by
  intro s
  induction s with
  | nil =>
    intro _
    simp only [List.nil_append]
    rw [stripBlankLinesGo]
    simp [isNlChar]
  | cons c rest ih =>
    intro h
    simp only [noNl, List.all_cons, Bool.and_eq_true] at h
    simp only [List.cons_append]
    rw [stripBlankLinesGo]
    simp only [Bool.false_eq_true, if_false]
    have hc : isNlChar c = false := by simpa using h.1
    rw [hc, ih (by simpa [noNl] using h.2)]

theorem go_code_end (s : List Char) (hnl : noNl s = true) (hne : s ≠ []) :
    stripBlankLinesGo s true = s := by
  cases s with
  | nil => exact absurd rfl hne
  | cons c rest =>
    have h0 : blankMatchLen (c :: rest) = 0 :=
      blankMatchLen_eq_zero _ (noNl_takeWhile jsWs _ hnl)
    rw [stripBlankLinesGo]
    simp only [if_true, h0, Nat.lt_irrefl, if_false]
    simp only [noNl, List.all_cons, Bool.and_eq_true] at hnl
    have hc : isNlChar c = false := by simpa using hnl.1
    rw [hc, go_pass_false_end rest (by simpa [noNl] using hnl.2)]

theorem go_code_mid (z : List Char) (s : List Char) (hnl : noNl s = true)
    (hws : (s.all jsWs) = false) :
    stripBlankLinesGo (s ++ '\n' :: z) true =
      s ++ '\n' :: stripBlankLinesGo z true := by
  cases s with
  | nil => simp at hws
  | cons c rest =>
    have h0 : blankMatchLen ((c :: rest) ++ '\n' :: z) = 0 := by
      apply blankMatchLen_eq_zero
      rw [takeWhile_stop jsWs _ _ hws]
      exact noNl_takeWhile jsWs _ hnl
    simp only [List.cons_append] at h0 ⊢
    rw [stripBlankLinesGo]
    simp only [if_true, h0, Nat.lt_irrefl, if_false]
    simp only [noNl, List.all_cons, Bool.and_eq_true] at hnl
    have hc : isNlChar c = false := by simpa using hnl.1
    rw [hc, go_pass_false_mid z rest (by simpa [noNl] using hnl.2)]

theorem go_drop_blankMatch (z : List Char) :
    stripBlankLinesGo (z.drop (blankMatchLen z)) true = stripBlankLinesGo z true := by
  cases hm : blankMatchLen z with
  | zero => simp
  | succ k =>
    cases z with
    | nil => simp [blankMatchLen, lastNlIdx] at hm
    | cons c rest =>
      conv_rhs => rw [stripBlankLinesGo]
      simp only [if_true]
      rw [if_pos (by rw [hm]; omega), hm]

theorem go_blank_mid (z : List Char) (ws : List Char) (hws : wsOnly ws = true) :
    stripBlankLinesGo (ws ++ '\n' :: z) true = stripBlankLinesGo z true := by
  have hbm := blankMatchLen_blank z ws hws
  have hpos : 0 < blankMatchLen (ws ++ '\n' :: z) := by omega
  have hdrop : (ws ++ '\n' :: z).drop (blankMatchLen (ws ++ '\n' :: z)) =
      z.drop (blankMatchLen z) := by
    rw [hbm]
    rw [show ws ++ '\n' :: z = (ws ++ ['\n']) ++ z by simp]
    rw [show ws.length + 1 + blankMatchLen z =
        (ws ++ ['\n']).length + blankMatchLen z by simp]
    rw [List.drop_append]
  cases hw : ws ++ '\n' :: z with
  | nil => simp at hw
  | cons c rest =>
    rw [stripBlankLinesGo]
    simp only [if_true]
    rw [if_pos (by rw [← hw]; exact hpos)]
    rw [← hw, hdrop]
    exact go_drop_blankMatch z

theorem codeContents_code (s : List Char) (tail : List SrcLine) :
    codeContents (SrcLine.codeLine s :: tail) = s :: codeContents tail := rfl

theorem codeContents_line (ws s : List Char) (tail : List SrcLine) :
    codeContents (SrcLine.lineComment ws s :: tail) = codeContents tail := rfl

theorem codeContents_block (ws s : List Char) (tail : List SrcLine) :
    codeContents (SrcLine.blockComment ws s :: tail) = codeContents tail := rfl

theorem codeContents_blank (ws : List Char) (tail : List SrcLine) :
    codeContents (SrcLine.blankLine ws :: tail) = codeContents tail := rfl

theorem lastIsCode_cons_cons (l l2 : SrcLine) (rest : List SrcLine) :
    lastIsCode (l :: l2 :: rest) = lastIsCode (l2 :: rest) := by
  simp only [lastIsCode, List.getLast?_cons_cons]

theorem codeContents_ne_nil : ∀ L, lastIsCode L = true → codeContents L ≠ [] := by
  intro L
  induction L with
  | nil => intro h; simp [lastIsCode] at h
  | cons l rest ih =>
    intro h
    cases rest with
    | nil =>
      cases l with
      | codeLine s => rw [codeContents_code]; simp
      | lineComment ws s => simp [lastIsCode] at h
      | blockComment ws s => simp [lastIsCode] at h
      | blankLine ws => simp [lastIsCode] at h
    | cons l2 rest2 =>
      have h2 := ih (by rw [← lastIsCode_cons_cons l l2 rest2]; exact h)
      cases l with
      | codeLine s => rw [codeContents_code]; simp
      | lineComment ws s => rw [codeContents_line]; exact h2
      | blockComment ws s => rw [codeContents_block]; exact h2
      | blankLine ws => rw [codeContents_blank]; exact h2

theorem joinLines_cons (p : List Char) (q : List (List Char)) (hq : q ≠ []) :
    joinLines (p :: q) = p ++ '\n' :: joinLines q := by
  cases q with
  | nil => exact absurd rfl hq
  | cons r rest => rfl

/-- The blank-line pass over a rendered source made only of code and blank
lines, ending in a code line, yields exactly the newline-joined code lines. -/
theorem stripBlank_render : ∀ L, wfSrc L = true → L.all onlyCodeOrBlank = true →
    lastIsCode L = true →
    stripBlankLines (renderChars L) = joinLines (codeContents L) := by
  intro L
  induction L with
  | nil => intro _ _ hlast; simp [lastIsCode] at hlast
  | cons l rest ih =>
    intro hwf honly hlast
    simp only [wfSrc, List.all_cons, Bool.and_eq_true] at hwf honly
    cases rest with
    | nil =>
      cases l with
      | codeLine s =>
        have hwl : wfLine (SrcLine.codeLine s) = true := hwf.1
        simp only [wfLine, Bool.and_eq_true, Bool.not_eq_true'] at hwl
        obtain ⟨⟨⟨hnl, -⟩, -⟩, hws⟩ := hwl
        have hne : s ≠ [] := by
          intro hE; rw [hE] at hws; simp at hws
        have h1 : renderChars [SrcLine.codeLine s] = s := rfl
        have h2 : codeContents [SrcLine.codeLine s] = [s] := rfl
        rw [h1, h2]
        show stripBlankLinesGo s true = joinLines [s]
        rw [show joinLines [s] = s from rfl]
        exact go_code_end s hnl hne
      | lineComment ws s => simp [onlyCodeOrBlank] at honly
      | blockComment ws s => simp [onlyCodeOrBlank] at honly
      | blankLine ws => simp [lastIsCode] at hlast
    | cons l2 rest2 =>
      have hlast2 : lastIsCode (l2 :: rest2) = true := by
        rw [← lastIsCode_cons_cons l l2 rest2]; exact hlast
      have htail := ih hwf.2 honly.2 hlast2
      cases l with
      | codeLine s =>
        have hwl : wfLine (SrcLine.codeLine s) = true := hwf.1
        simp only [wfLine, Bool.and_eq_true, Bool.not_eq_true'] at hwl
        obtain ⟨⟨⟨hnl, -⟩, -⟩, hws⟩ := hwl
        rw [show renderChars (SrcLine.codeLine s :: l2 :: rest2) =
            s ++ '\n' :: renderChars (l2 :: rest2) from rfl]
        rw [codeContents_code]
        show stripBlankLinesGo (s ++ '\n' :: renderChars (l2 :: rest2)) true = _
        rw [go_code_mid _ s hnl hws]
        rw [show stripBlankLinesGo (renderChars (l2 :: rest2)) true =
            stripBlankLines (renderChars (l2 :: rest2)) from rfl, htail]
        rw [joinLines_cons _ _ (codeContents_ne_nil _ hlast2)]
      | lineComment ws s => simp [onlyCodeOrBlank] at honly
      | blockComment ws s => simp [onlyCodeOrBlank] at honly
      | blankLine ws =>
        rw [show renderChars (SrcLine.blankLine ws :: l2 :: rest2) =
            ws ++ '\n' :: renderChars (l2 :: rest2) from rfl]
        rw [codeContents_blank]
        show stripBlankLinesGo (ws ++ '\n' :: renderChars (l2 :: rest2)) true = _
        rw [go_blank_mid _ ws hwf.1]
        exact htail

/-! ### Preservation of shape through the two comment-stripping passes -/

theorem wfSrc_blockStrip : ∀ L, wfSrc L = true →
    wfSrc (L.map blockStripLine) = true := by
  intro L
  induction L with
  | nil => intro _; rfl
  | cons l rest ih =>
    intro h
    simp only [wfSrc, List.map_cons, List.all_cons, Bool.and_eq_true] at h ⊢
    refine ⟨?_, ih h.2⟩
    cases l with
    | codeLine s => exact h.1
    | lineComment ws s => exact h.1
    | blockComment ws s =>
      have hwl := h.1
      simp only [wfLine, Bool.and_eq_true] at hwl
      exact hwl.1.1
    | blankLine ws => exact h.1

theorem noBlock_blockStrip : ∀ L : List SrcLine, (L.map blockStripLine).all noBlockLine = true := by
  intro L
  induction L with
  | nil => rfl
  | cons l rest ih =>
    simp only [List.map_cons, List.all_cons, Bool.and_eq_true]
    exact ⟨by cases l <;> rfl, ih⟩

theorem codeContents_blockStrip : ∀ L,
    codeContents (L.map blockStripLine) = codeContents L := by
  intro L
  induction L with
  | nil => rfl
  | cons l rest ih =>
    cases l <;>
      simp only [List.map_cons, blockStripLine, codeContents_code,
        codeContents_line, codeContents_block, codeContents_blank, ih]

theorem wfSrc_lineStrip : ∀ L, wfSrc L = true →
    wfSrc (L.map lineStripLine) = true := by
  intro L
  induction L with
  | nil => intro _; rfl
  | cons l rest ih =>
    intro h
    simp only [wfSrc, List.map_cons, List.all_cons, Bool.and_eq_true] at h ⊢
    refine ⟨?_, ih h.2⟩
    cases l with
    | codeLine s => exact h.1
    | lineComment ws s =>
      have hwl := h.1
      simp only [wfLine, Bool.and_eq_true] at hwl
      exact hwl.1.1.1
    | blockComment ws s => exact h.1
    | blankLine ws => exact h.1

theorem onlyCodeOrBlank_lineStrip : ∀ L : List SrcLine, L.all noBlockLine = true →
    (L.map lineStripLine).all onlyCodeOrBlank = true := by
  intro L
  induction L with
  | nil => intro _; rfl
  | cons l rest ih =>
    intro h
    simp only [List.all_cons, Bool.and_eq_true] at h
    simp only [List.map_cons, List.all_cons, Bool.and_eq_true]
    refine ⟨?_, ih h.2⟩
    cases l with
    | codeLine s => rfl
    | lineComment ws s => rfl
    | blockComment ws s => exact absurd h.1 (by simp [noBlockLine])
    | blankLine ws => rfl

theorem codeContents_lineStrip : ∀ L,
    codeContents (L.map lineStripLine) = codeContents L := by
  intro L
  induction L with
  | nil => rfl
  | cons l rest ih =>
    cases l <;>
      simp only [List.map_cons, lineStripLine, codeContents_code,
        codeContents_line, codeContents_block, codeContents_blank, ih]

theorem lastIsCode_map (f : SrcLine → SrcLine)
    (hf : ∀ s, f (SrcLine.codeLine s) = SrcLine.codeLine s) :
    ∀ L, lastIsCode L = true → lastIsCode (L.map f) = true := by
  intro L
  induction L with
  | nil => intro h; simp [lastIsCode] at h
  | cons l rest ih =>
    intro h
    cases rest with
    | nil =>
      cases l with
      | codeLine s =>
        simp only [List.map_cons, List.map_nil, hf]
        simp [lastIsCode]
      | lineComment ws s => simp [lastIsCode] at h
      | blockComment ws s => simp [lastIsCode] at h
      | blankLine ws => simp [lastIsCode] at h
    | cons l2 rest2 =>
      have h2 := ih (by rw [← lastIsCode_cons_cons l l2 rest2]; exact h)
      simp only [List.map_cons] at h2 ⊢
      rw [lastIsCode_cons_cons]
      exact h2

/-! ### Lines and pattern absence in the joined output -/

theorem charLines_noNl : ∀ p, noNl p = true → charLines p = [p] := by
  intro p
  induction p with
  | nil => intro _; rfl
  | cons c rest ih =>
    intro h
    simp only [noNl, List.all_cons, Bool.and_eq_true] at h
    have hc : ¬(c = '\n') := by
      intro hE; subst hE; simp [isNlChar] at h
    rw [charLines, if_neg hc, ih (by simpa [noNl] using h.2)]

theorem charLines_append_nl (z : List Char) : ∀ p, noNl p = true →
    charLines (p ++ '\n' :: z) = p :: charLines z := by
  intro p
  induction p with
  | nil => intro _; rw [List.nil_append, charLines, if_pos rfl]
  | cons c rest ih =>
    intro h
    simp only [noNl, List.all_cons, Bool.and_eq_true] at h
    have hc : ¬(c = '\n') := by
      intro hE; subst hE; simp [isNlChar] at h
    simp only [List.cons_append]
    rw [charLines, if_neg hc, ih (by simpa [noNl] using h.2)]

theorem charLines_joinLines : ∀ cs, cs ≠ [] → (∀ p ∈ cs, noNl p = true) →
    charLines (joinLines cs) = cs := by
  intro cs
  induction cs with
  | nil => intro h _; exact absurd rfl h
  | cons p rest ih =>
    intro _ hall
    cases rest with
    | nil =>
      rw [show joinLines [p] = p from rfl]
      rw [charLines_noNl p (hall p (by simp))]
    | cons q rest2 =>
      rw [joinLines_cons p (q :: rest2) (by simp)]
      rw [charLines_append_nl _ p (hall p (by simp))]
      rw [ih (by simp) (fun r hr => hall r (by simp [hr]))]

theorem joinLines_no_pair (a b : Char) (ha : (a == '\n') = false)
    (hb : (b == '\n') = false) :
    ∀ cs, (∀ p ∈ cs, listContains [a, b] p = false) →
      listContains [a, b] (joinLines cs) = false := by
  intro cs
  induction cs with
  | nil => intro _; rfl
  | cons p rest ih =>
    intro hall
    cases rest with
    | nil => exact hall p (by simp)
    | cons q rest2 =>
      rw [joinLines_cons p (q :: rest2) (by simp)]
      rw [listContains_pair_append]
      have h1 : listContains [a, b] p = false := hall p (by simp)
      have h2 : listContains [a, b] (joinLines (q :: rest2)) = false :=
        ih (fun r hr => hall r (by simp [hr]))
      have h3 : headIs b ('\n' :: joinLines (q :: rest2)) = false := by
        simp [headIs, hb]
      have h4 : listContains [a, b] ('\n' :: joinLines (q :: rest2)) = false := by
        simp only [listContains]
        simp [List.isPrefixOf, ha, h2]
      rw [h1, h3, h4]
      simp

theorem codeContents_wf : ∀ L, wfSrc L = true →
    ∀ s ∈ codeContents L, noNl s = true ∧ listContains ['/', '/'] s = false ∧
      listContains ['/', '*'] s = false ∧ s.all jsWs = false := by
  intro L
  induction L with
  | nil => intro _ s hs; simp [codeContents] at hs
  | cons l rest ih =>
    intro hwf s hs
    simp only [wfSrc, List.all_cons, Bool.and_eq_true] at hwf
    cases l with
    | codeLine t =>
      rw [codeContents_code] at hs
      rcases List.mem_cons.mp hs with rfl | hs2
      · have hwl : wfLine (SrcLine.codeLine s) = true := hwf.1
        simp only [wfLine, Bool.and_eq_true, Bool.not_eq_true'] at hwl
        exact ⟨hwl.1.1.1, hwl.1.1.2, hwl.1.2, hwl.2⟩
      · exact ih hwf.2 s hs2
    | lineComment ws t => rw [codeContents_line] at hs; exact ih hwf.2 s hs
    | blockComment ws t => rw [codeContents_block] at hs; exact ih hwf.2 s hs
    | blankLine ws => rw [codeContents_blank] at hs; exact ih hwf.2 s hs

/-- A concrete generated source: code, a line comment, code, an indented block
comment, a blank line, and a final code line. -/
def exampleSrc : List SrcLine :=
  [ SrcLine.codeLine ['c', 'o', 'n', 's', 't', ' ', 'x', '=', '1', ';'],
    SrcLine.lineComment [' ', ' '] [' ', 'f', 'o', 'o'],
    SrcLine.codeLine ['l', 'e', 't', ' ', 'y', '=', 'x', ';'],
    SrcLine.blockComment ['\t'] [' ', 'b', 'a', 'r', ' '],
    SrcLine.blankLine [' ', ' '],
    SrcLine.codeLine ['r', 'e', 't', 'u', 'r', 'n', ' ', 'y', ';'] ]

/-- **C6.** For every generated source made of code lines interleaved with
`// …` line comments, `/* … */` block comments and blank lines (each comment on
its own line, comment bodies free of nested delimiters, code lines free of
comment openers and non-blank, the last line a code line), the post-processing
pipeline of `generateWebsite` — strip block comments, strip line comments,
strip blank lines — returns exactly the newline-joined code lines: every
non-comment statement is preserved unchanged, and the output contains no `//`,
no `/*`, and no blank line. -/
theorem C6_comment_stripping (L : List SrcLine)
    (hwf : wfSrc L = true) (hlast : lastIsCode L = true) :
    postProcessChars (renderChars L) = joinLines (codeContents L) ∧
    listContains ['/', '/'] (postProcessChars (renderChars L)) = false ∧
    listContains ['/', '*'] (postProcessChars (renderChars L)) = false ∧
    (charLines (postProcessChars (renderChars L))).all
      (fun ln => !(ln.all jsWs)) = true := by
  have hwfB : wfSrc (L.map blockStripLine) = true := wfSrc_blockStrip L hwf
  have hwfBL : wfSrc ((L.map blockStripLine).map lineStripLine) = true :=
    wfSrc_lineStrip _ hwfB
  have honly : ((L.map blockStripLine).map lineStripLine).all onlyCodeOrBlank = true :=
    onlyCodeOrBlank_lineStrip _ (noBlock_blockStrip L)
  have hlastBL : lastIsCode ((L.map blockStripLine).map lineStripLine) = true :=
    lastIsCode_map lineStripLine (fun _ => rfl) _
      (lastIsCode_map blockStripLine (fun _ => rfl) L hlast)
  have h1 : postProcessChars (renderChars L) = joinLines (codeContents L) := by
    rw [postProcessChars, stripBlock_render L hwf,
      stripLine_render _ hwfB (noBlock_blockStrip L),
      stripBlank_render _ hwfBL honly hlastBL,
      codeContents_lineStrip, codeContents_blockStrip]
  have hcc := codeContents_wf L hwf
  have hne := codeContents_ne_nil L hlast
  refine ⟨h1, ?_, ?_, ?_⟩
  · rw [h1]
    exact joinLines_no_pair '/' '/' (by decide) (by decide) _
      (fun p hp => (hcc p hp).2.1)
  · rw [h1]
    exact joinLines_no_pair '/' '*' (by decide) (by decide) _
      (fun p hp => (hcc p hp).2.2.1)
  · rw [h1, charLines_joinLines _ hne (fun p hp => (hcc p hp).1)]
    simp only [List.all_eq_true]
    intro p hp
    simpa using (hcc p hp).2.2.2

/-- The C6 property instantiated on `exampleSrc`. -/
theorem C6_comment_stripping_witness :
    postProcessChars (renderChars exampleSrc) = joinLines (codeContents exampleSrc) ∧
    listContains ['/', '/'] (postProcessChars (renderChars exampleSrc)) = false ∧
    listContains ['/', '*'] (postProcessChars (renderChars exampleSrc)) = false ∧
    (charLines (postProcessChars (renderChars exampleSrc))).all
      (fun ln => !(ln.all jsWs)) = true :=
  C6_comment_stripping exampleSrc (by decide) (by decide)
